import Mathlib

/-!
# Wallpaper-Generator: tiled super-resolution, directory scan, driver loop

A shallow embedding of `src/main.cpp`.

* Images (`cv::Mat`) are a row count, a column count and a pixel function
  `px row col`.  Two images are the same image (`Mat.Same`) when they have the
  same dimensions and the same pixel at every position inside them.
* C++ `int` values are modelled by unbounded naturals.  Signed overflow is
  undefined behaviour in C++; the model is the program on inputs where
  `cols * scale`, `rows * scale`, `cols + tileSize` and `rows + tileSize` fit
  in 31 bits (images decoded by `imread` have at most `2^20` rows and columns,
  the scale is 4 and the tile size is 1024).
* Library calls that can throw (`Mat::operator()(Rect)`, `sr.upsample`,
  `std::stoi`, `fs::create_directories`, `fs::directory_iterator`, the image
  transforms of the loop body, `imwrite`) are fallible in the model.
* Loops that may fail to terminate carry a fuel argument.
-/

namespace WallpaperGenerator

/-! ## Images and rectangles -/

/-- An 8-bit, 3-channel pixel (`CV_8UC3`, as produced by `imread(..., IMREAD_COLOR)`). -/
abbrev Vec3b := Fin 256 × Fin 256 × Fin 256

/-- The embedding of `cv::Mat`: `rows`, `cols` and the pixel at `(row, col)`. -/
structure Mat where
  rows : Nat
  cols : Nat
  px : Nat → Nat → Vec3b

/-- The embedding of `cv::Rect`: top-left corner `(x, y)`, `width`, `height`. -/
structure Rect where
  x : Nat
  y : Nat
  width : Nat
  height : Nat
deriving DecidableEq, Repr

/-- The pixel at column `px`, row `py` lies in the rectangle. -/
def Rect.contains (r : Rect) (px py : Nat) : Bool :=
  decide (r.x ≤ px) && decide (px < r.x + r.width) &&
    decide (r.y ≤ py) && decide (py < r.y + r.height)

/-- The rectangle lies inside the image. -/
def Rect.inside (r : Rect) (m : Mat) : Prop :=
  r.x + r.width ≤ m.cols ∧ r.y + r.height ≤ m.rows

/-- The embedding of `Mat::zeros(rows, cols, type)`. -/
def Mat.zeros (rows cols : Nat) : Mat :=
  { rows := rows, cols := cols, px := fun _ _ => (0, 0, 0) }

/-- The embedding of `m(roi)`: OpenCV asserts
`roi.x + roi.width <= m.cols && roi.y + roi.height <= m.rows` (the sign checks
hold by type) and throws otherwise; the result is a view of the sub-region. -/
def Mat.roi (m : Mat) (r : Rect) : Option Mat :=
  if r.x + r.width ≤ m.cols ∧ r.y + r.height ≤ m.rows then
    some { rows := r.height, cols := r.width, px := fun i j => m.px (r.y + i) (r.x + j) }
  else none

/-- The embedding of `tile.copyTo(dst(r))`: the view `dst(r)` throws when `r`
leaves `dst`; otherwise the pixels of `tile` overwrite the region `r` of `dst`
(`r` has the size of `tile`, so `copyTo` does not reallocate the view). -/
def Mat.copyTo (tile : Mat) (dst : Mat) (r : Rect) : Option Mat :=
  if r.x + r.width ≤ dst.cols ∧ r.y + r.height ≤ dst.rows then
    some { rows := dst.rows, cols := dst.cols,
           px := fun i j =>
             if r.contains j i then tile.px (i - r.y) (j - r.x) else dst.px i j }
  else none

/-- Two images are the same: equal dimensions and equal pixels inside them. -/
def Mat.Same (a b : Mat) : Prop :=
  a.rows = b.rows ∧ a.cols = b.cols ∧
    ∀ i j, i < a.rows → j < a.cols → a.px i j = b.px i j

/-- The embedding of `DnnSuperResImpl`: `getScale()` and `upsample`, the
latter an external inference call that returns an image or throws. -/
structure DnnSuperResImpl where
  getScale : Nat
  upsample : Mat → Option Mat

/-! ## tileUpscale -/

/-- How a run of a loop ended. -/
inductive Status where
  | done
  | threw
  | outOfFuel
deriving DecidableEq, Repr

/-- The state of `tileUpscale`: the output buffer `dst` and, as a ghost
field, the list of tile rectangles on which `sr.upsample` was called. -/
structure TileRun where
  status : Status
  dst : Mat
  calls : List Rect

/-- Lines 27-31 of `main.cpp`: the body of the inner loop at tile origin `(x, y)`. -/
def tileBody (sr : DnnSuperResImpl) (src : Mat) (tileSize x y : Nat)
    (dst : Mat) (calls : List Rect) : TileRun :=
  let scale := sr.getScale
  let roi : Rect := ⟨x, y, min tileSize (src.cols - x), min tileSize (src.rows - y)⟩
  match src.roi roi with
  | none => ⟨.threw, dst, calls⟩
  | some tile =>
    match sr.upsample tile with
    | none => ⟨.threw, dst, calls ++ [roi]⟩
    | some tile_sr =>
      match tile_sr.copyTo dst ⟨x * scale, y * scale, tile_sr.cols, tile_sr.rows⟩ with
      | none => ⟨.threw, dst, calls ++ [roi]⟩
      | some dst' => ⟨.done, dst', calls ++ [roi]⟩

/-- Line 26: `for (int x = ...; x < src.cols; x += tileSize)`, started at `x`. -/
def tileRow (sr : DnnSuperResImpl) (src : Mat) (tileSize y : Nat) :
    Nat → Nat → Mat → List Rect → TileRun
  | 0, _, dst, calls => ⟨.outOfFuel, dst, calls⟩
  | fuel + 1, x, dst, calls =>
    if x < src.cols then
      let r := tileBody sr src tileSize x y dst calls
      match r.status with
      | .done => tileRow sr src tileSize y fuel (x + tileSize) r.dst r.calls
      | _ => r
    else ⟨.done, dst, calls⟩

/-- Line 25: `for (int y = ...; y < src.rows; y += tileSize)`, started at `y`;
every row runs the inner loop from `x = 0`. -/
def tileRows (sr : DnnSuperResImpl) (src : Mat) (tileSize : Nat) (rowFuel : Nat) :
    Nat → Nat → Mat → List Rect → TileRun
  | 0, _, dst, calls => ⟨.outOfFuel, dst, calls⟩
  | fuel + 1, y, dst, calls =>
    if y < src.rows then
      let r := tileRow sr src tileSize y rowFuel 0 dst calls
      match r.status with
      | .done => tileRows sr src tileSize rowFuel fuel (y + tileSize) r.dst r.calls
      | _ => r
    else ⟨.done, dst, calls⟩

/-- The embedding of `tileUpscale(sr, src, dst, tileSize)`; `fuel` bounds the
number of iterations of each of the two loops. -/
def tileUpscale (fuel : Nat) (sr : DnnSuperResImpl) (src : Mat) (tileSize : Nat) : TileRun :=
  let dst := Mat.zeros (src.rows * sr.getScale) (src.cols * sr.getScale)
  tileRows sr src tileSize fuel fuel 0 dst []

/-! ## Closed forms used to state the tiling theorems -/

/-- The number of steps of `for (v = 0; v < n; v += t)` when `0 < t`. -/
def ceilDiv (n t : Nat) : Nat := (n + t - 1) / t

/-- The tile rectangle of line 27 at column index `i` and row index `j`,
that is at origin `(i * tileSize, j * tileSize)`. -/
def tileAt (src : Mat) (tileSize i j : Nat) : Rect :=
  ⟨i * tileSize, j * tileSize,
    min tileSize (src.cols - i * tileSize), min tileSize (src.rows - j * tileSize)⟩

/-- The tiles of row `j`, left to right. -/
def tileRowList (src : Mat) (tileSize j : Nat) : List Rect :=
  (List.range (ceilDiv src.cols tileSize)).map (fun i => tileAt src tileSize i j)

/-- All tiles, row by row. -/
def tileGrid (src : Mat) (tileSize : Nat) : List Rect :=
  (List.range (ceilDiv src.rows tileSize)).flatMap (fun j => tileRowList src tileSize j)

/-- The destination rectangle of line 31 for the tile `r` when the model
scales exactly: origin and size of `r` times `scale`. -/
def destRect (scale : Nat) (r : Rect) : Rect :=
  ⟨r.x * scale, r.y * scale, r.width * scale, r.height * scale⟩

/-- The effect of lines 28-31 on `dst` for the tile `r` (`dst` is left as it
is when one of the three calls throws). -/
def pasteTile (sr : DnnSuperResImpl) (src : Mat) (dst : Mat) (r : Rect) : Mat :=
  match src.roi r with
  | none => dst
  | some tile =>
    match sr.upsample tile with
    | none => dst
    | some tile_sr =>
      match tile_sr.copyTo dst ⟨r.x * sr.getScale, r.y * sr.getScale, tile_sr.cols, tile_sr.rows⟩ with
      | none => dst
      | some dst' => dst'

/-- The model returns, for every `w x h` input, an output of exactly
`(w * scale) x (h * scale)`. -/
def ScalesExactly (sr : DnnSuperResImpl) : Prop :=
  ∀ m : Mat, ∃ o : Mat, sr.upsample m = some o ∧
    o.rows = m.rows * sr.getScale ∧ o.cols = m.cols * sr.getScale

/-- The origin coordinate of the tile whose destination rectangle holds the
output coordinate `X`: `T * floor(X / (T * s))`. -/
def tileOrigin (tileSize scale X : Nat) : Nat := tileSize * (X / (tileSize * scale))

/-! ## printProgress (lines 13-17)

`float` is IEEE 754 binary32 with round-to-nearest, ties-to-even (the
arithmetic of SSE2 and AArch64, `FLT_EVAL_METHOD == 0`).  The values that occur
are zero or lie between `2^-31` and `2^31`, so the exponent range of the format
plays no role and the model keeps the exponent unbounded. -/

/-- A non-negative finite binary32 value `mant * 2 ^ exp`, `mant ≤ 2 ^ 24`. -/
structure Binary32 where
  mant : Nat
  exp : Int
deriving DecidableEq, Repr

/-- Double `n` (lowering the exponent) until `n / d` is at least `2 ^ 23`. -/
def Binary32.scaleUp : Nat → Nat → Nat → Int → Nat × Int
  | 0, n, _, e => (n, e)
  | fuel + 1, n, d, e =>
    if n < 8388608 * d then Binary32.scaleUp fuel (2 * n) d (e - 1) else (n, e)

/-- Double `d` (raising the exponent) until `n / d` is below `2 ^ 24`. -/
def Binary32.scaleDown : Nat → Nat → Nat → Int → Nat × Int
  | 0, _, d, e => (d, e)
  | fuel + 1, n, d, e =>
    if 16777216 * d ≤ n then Binary32.scaleDown fuel n (2 * d) (e + 1) else (d, e)

/-- The binary32 value nearest to the rational `n / d` (`0 < d`), ties to
even: the quotient is scaled into `[2^23, 2^24)`, cut to an integer and
rounded on the remainder.  The fuel 128 covers all `n, d < 2 ^ 100`. -/
def Binary32.round (n d : Nat) : Binary32 :=
  if n = 0 then ⟨0, 0⟩
  else
    let up := Binary32.scaleUp 128 n d 0
    let down := Binary32.scaleDown 128 up.1 d up.2
    let q := up.1 / down.1
    let r := up.1 % down.1
    let q' :=
      if 2 * r < down.1 then q
      else if down.1 < 2 * r then q + 1
      else if q % 2 = 0 then q else q + 1
    ⟨q', down.2⟩

/-- Conversion `int -> float` of a non-negative value. -/
def Binary32.ofNat (n : Nat) : Binary32 := Binary32.round n 1

/-- Division `a / b` in binary32 (`b` not zero). -/
def Binary32.div (a b : Binary32) : Binary32 :=
  let r := Binary32.round a.mant b.mant
  ⟨r.mant, r.exp + a.exp - b.exp⟩

/-- Multiplication `a * b` in binary32. -/
def Binary32.mul (a b : Binary32) : Binary32 :=
  let r := Binary32.round (a.mant * b.mant) 1
  ⟨r.mant, r.exp + a.exp + b.exp⟩

/-- Conversion `float -> int`: truncation. -/
def Binary32.toNat (a : Binary32) : Nat :=
  if 0 ≤ a.exp then a.mant * 2 ^ a.exp.toNat else a.mant / 2 ^ (-a.exp).toNat

/-- What `printProgress` writes: the file name, the percentage, and whether
the line is ended by `std::endl`. -/
structure ProgressLine where
  filename : String
  percent : Option Nat
  newline : Bool
deriving DecidableEq, Repr

/-- The embedding of `printProgress(current, total, filename)` for
`0 <= current` and `0 <= total`.  Line 14 is `int(float(current) / total * 100)`:
`current` is converted to `float`, `total` and `100` are converted to `float`
by the usual arithmetic conversions, the quotient and the product are rounded
to `float`, and the result is truncated.  With `total == 0` the quotient is
infinite or NaN and its conversion to `int` is undefined: no percentage. -/
def printProgress (current total : Nat) (filename : String) : ProgressLine :=
  let percent :=
    if total = 0 then none
    else some (Binary32.toNat
      (Binary32.mul (Binary32.div (Binary32.ofNat current) (Binary32.ofNat total))
        (Binary32.ofNat 100)))
  ⟨filename, percent, current == total⟩

/-! ## The directory scanner (lines 64-71) -/

/-- The embedding of `::tolower` in the "C" locale (the program never calls
`setlocale`): `A`..`Z` go to `a`..`z`, every other character is unchanged. -/
def tolower (c : Char) : Char :=
  if 65 ≤ c.toNat ∧ c.toNat ≤ 90 then Char.ofNat (c.toNat + 32) else c

/-- The embedding of `::toupper` in the "C" locale, used to state case variants. -/
def toupper (c : Char) : Char :=
  if 97 ≤ c.toNat ∧ c.toNat ≤ 122 then Char.ofNat (c.toNat - 32) else c

/-- The embedding of `fs::path`, as far as `main` looks at it: `stem()` and
`extension()` (the extension starts with its dot, or is empty). -/
structure Path where
  stem : String
  extension : String
deriving DecidableEq, Repr

/-- The embedding of `path.filename()`. -/
def Path.filename (p : Path) : String := p.stem ++ p.extension

/-- An entry of `fs::directory_iterator(inputFolder)`. -/
structure DirEntry where
  path : Path
  is_regular_file : Bool
deriving DecidableEq, Repr

/-- Line 68: `std::transform(ext.begin(), ext.end(), ext.begin(), ::tolower)`. -/
def lowerExt (ext : String) : String := String.mk (ext.data.map tolower)

/-- The extensions of line 69. -/
def imageExtensions : List String := [".jpg", ".jpeg", ".png", ".bmp", ".tiff", ".webp"]

/-- Lines 67-69: the test on the extension of a directory entry. -/
def acceptsExt (ext : String) : Bool :=
  let ext := lowerExt ext
  ext == ".jpg" || ext == ".jpeg" || ext == ".png" || ext == ".bmp" || ext == ".tiff" ||
    ext == ".webp"

/-- Lines 65-71: the loop over the directory entries, in iteration order. -/
def collectImages : List DirEntry → List Path
  | [] => []
  | p :: rest =>
    if !p.is_regular_file then collectImages rest
    else if acceptsExt p.path.extension then p.path :: collectImages rest
    else collectImages rest

/-- The string `e2` is `e1` with the case of some letters changed. -/
def CaseVariant (e1 e2 : String) : Prop :=
  List.Forall₂ (fun a b => tolower a = tolower b) e1.data e2.data

/-! ## std::stoi -/

/-- The result of `std::stoi`: the converted value, or one of its two exceptions. -/
inductive StoiResult where
  | ok (value : Int)
  | invalid_argument
  | out_of_range
deriving DecidableEq, Repr

/-- The embedding of `isspace` in the "C" locale. -/
def isspace (c : Char) : Bool :=
  c == ' ' || c == '\t' || c == '\n' || c == '\x0b' || c == '\x0c' || c == '\r'

/-- The embedding of `isdigit`. -/
def isdigit (c : Char) : Bool := decide (48 ≤ c.toNat) && decide (c.toNat ≤ 57)

/-- The value of a run of decimal digits. -/
def digitsValue (ds : List Char) : Nat :=
  ds.foldl (fun acc c => 10 * acc + (c.toNat - 48)) 0

/-- The embedding of `std::stoi(str)` (base 10, as specified by the C++
standard through `strtol`): leading white space is skipped, an optional sign
is read, then the longest run of decimal digits; what follows the digits is
ignored.  No digit: `std::invalid_argument`.  Value outside `int`:
`std::out_of_range`. -/
def stoi (str : String) : StoiResult :=
  let body := str.data.dropWhile isspace
  let signed : Bool × List Char :=
    match body with
    | '-' :: rest => (true, rest)
    | '+' :: rest => (false, rest)
    | rest => (false, rest)
  let digits := signed.2.takeWhile isdigit
  if digits.isEmpty then .invalid_argument
  else
    let magnitude : Int := digitsValue digits
    let value : Int := if signed.1 then -magnitude else magnitude
    if value < -2147483648 ∨ 2147483647 < value then .out_of_range
    else .ok value

/-- The string is a plain decimal numeral of a positive integer: digits only,
at least one, value above zero. -/
def isPositiveDecimal (str : String) : Bool :=
  !str.data.isEmpty && str.data.all isdigit && decide (0 < digitsValue str.data)

/-! ## main -/

/-- What `main` does that can be observed from outside (`createDirectories`:
line 49 has created the output folder). -/
inductive Event where
  | usage
  | createDirectories (outputFolder : String)
  | modelLoadError
  | noImagesFound
  | progress (current total : Nat) (label : String)
  | imread (p : Path)
  | readFailed (p : Path)
  | imwrite (outPath : String)
  | writeFailed (outPath : String)
  | saved (outPath : String)
  | allProcessed
deriving DecidableEq, Repr

/-- The event is a line on standard error written by `main`. -/
def Event.isErrorLine : Event → Bool
  | .usage | .modelLoadError | .noImagesFound | .readFailed _ | .writeFailed _ => true
  | _ => false

/-- The path read, for an `imread` event. -/
def Event.readOf : Event → Option Path
  | .imread p => some p
  | _ => none

/-- The path written to, for an `imwrite` event. -/
def Event.writeOf : Event → Option String
  | .imwrite o => some o
  | _ => none

/-- The path, for a "Failed to read" line. -/
def Event.readFailedOf : Event → Option Path
  | .readFailed p => some p
  | _ => none

/-- The output path, for a "Failed to write" line. -/
def Event.writeFailedOf : Event → Option String
  | .writeFailed o => some o
  | _ => none

/-- The output path, for a "Saved" line (an output file now exists). -/
def Event.savedOf : Event → Option String
  | .saved o => some o
  | _ => none

/-- The event reads an image or writes an output file. -/
def Event.touchesFile : Event → Bool
  | .imread _ | .imwrite _ | .saved _ => true
  | _ => false

/-- How the process ends: `return code` from `main`, or `std::terminate`
after an exception that nothing catches (the process is aborted, which the
parent sees as a non-zero status). -/
inductive Outcome where
  | exit (code : Int)
  | uncaught
deriving DecidableEq, Repr

/-- The environment of one run of `main`. -/
structure Env where
  /-- The strings `argv[0]`, ..., `argv[argc - 1]`. -/
  argv : List String
  /-- The call `fs::exists(outputFolder)` returns `true`. -/
  outputFolderExists : Bool
  /-- The call `fs::exists(outputFolder)` returns `false` and
  `fs::create_directories(outputFolder)` returns.  When the folder is not
  reported to exist and this is `false`, one of the two calls of line 49
  throws `fs::filesystem_error`. -/
  createDirectoriesOk : Bool
  /-- The call `sr.readModel(modelPath)` returns (it throws `cv::Exception` otherwise). -/
  modelLoads : Bool
  /-- The entries of the input folder; `none` when the iteration of lines
  65-66 (`fs::directory_iterator`, its increment, `is_regular_file`) throws. -/
  inputDir : Option (List DirEntry)
  /-- The call `imread` for this path does not return an empty image: it
  returns an image, or it throws. -/
  imreadOk : Path → Bool
  /-- The call `imread` for this path returns and the calls of lines 88-114 on
  the image (denoising, `tileUpscale`, `resize` to a non-empty target size,
  CLAHE, sharpening) all return; otherwise one of them throws. -/
  transformOk : Path → Bool
  /-- The call `imwrite` throws for this output path. -/
  imwriteThrows : String → Bool
  /-- The call `imwrite` returns `true` for this output path. -/
  imwriteOk : String → Bool

/-- A run of `main`: the events in order and how the process ended. -/
structure Run where
  events : List Event
  outcome : Outcome

/-- A run of the loop over the images: the events, and whether the loop ran
to its end (it does not when an exception leaves it). -/
structure LoopRun where
  events : List Event
  completed : Bool

/-- Line 117: the path of the output file. -/
def outPathOf (outputFolder : String) (p : Path) : String :=
  outputFolder ++ "/" ++ p.stem ++ "_upscaled" ++ p.extension

/-- No call of the loop body throws for a readable image of the list: the
transforms return and `imwrite` does not throw. -/
def Env.bodyReturns (env : Env) (outputFolder : String) (images : List Path) : Prop :=
  ∀ p ∈ images, env.imreadOk p = true →
    env.transformOk p = true ∧ env.imwriteThrows (outPathOf outputFolder p) = false

/-- Lines 77-124: the loop over the images, from the image counter `count`.
No call of the loop body is inside a `try`, so an exception ends the loop and
`main`.  From `imread` up to `imwrite` a call throws when the environment
says so (`transformOk`), and `cv::resize` throws when the target size is
empty (`targetW <= 0 || targetH <= 0` with both scale factors 0 fails its
assertion); `imwrite` throws when the environment says so. -/
def processImages (env : Env) (outputFolder : String) (targetW targetH : Int) (total : Nat) :
    List Path → Nat → LoopRun
  | [], _ => ⟨[], true⟩
  | imgPath :: rest, count =>
    let start := [Event.progress count total imgPath.filename, Event.imread imgPath]
    if !env.imreadOk imgPath then
      let r := processImages env outputFolder targetW targetH total rest (count + 1)
      ⟨start ++ [Event.readFailed imgPath] ++ r.events, r.completed⟩
    else if !env.transformOk imgPath ∨ targetW ≤ 0 ∨ targetH ≤ 0 then
      ⟨start, false⟩
    else
      let outPath := outPathOf outputFolder imgPath
      let r := processImages env outputFolder targetW targetH total rest (count + 1)
      if env.imwriteThrows outPath then
        ⟨start ++ [Event.imwrite outPath], false⟩
      else if !env.imwriteOk outPath then
        ⟨start ++ [Event.imwrite outPath, Event.writeFailed outPath] ++ r.events, r.completed⟩
      else
        ⟨start ++ [Event.imwrite outPath, Event.saved outPath] ++ r.events, r.completed⟩

/-- The embedding of `main`.  `argc` is the length of `argv`.  The calls
that throw in the model are `std::stoi` (lines 45-46),
`fs::create_directories` (line 49), `sr.readModel` (caught on line 55),
`fs::directory_iterator` (line 65) and the calls of the loop body (see
`processImages`); an exception outside the `try` of lines 53-58 is caught
nowhere. -/
def main (env : Env) : Run :=
  if env.argv.length ≠ 6 then ⟨[Event.usage], .exit (-1)⟩
  else
    let outputFolder := env.argv.getD 2 ""
    match stoi (env.argv.getD 3 "") with
    | .invalid_argument | .out_of_range => ⟨[], .uncaught⟩
    | .ok targetW =>
      match stoi (env.argv.getD 4 "") with
      | .invalid_argument | .out_of_range => ⟨[], .uncaught⟩
      | .ok targetH =>
        let mk := if env.outputFolderExists then [] else [Event.createDirectories outputFolder]
        if !env.outputFolderExists && !env.createDirectoriesOk then ⟨[], .uncaught⟩
        else if !env.modelLoads then ⟨mk ++ [Event.modelLoadError], .exit (-1)⟩
        else
          match env.inputDir with
          | none => ⟨mk, .uncaught⟩
          | some entries =>
            let images := collectImages entries
            let total := images.length
            if total = 0 then ⟨mk ++ [Event.noImagesFound], .exit (-1)⟩
            else
              let r := processImages env outputFolder targetW targetH total images 0
              if r.completed then
                ⟨mk ++ r.events ++ [Event.progress total total "Done", Event.allProcessed],
                  .exit 0⟩
              else ⟨mk ++ r.events, .uncaught⟩

/-! ## Sample inputs -/

/-- A run with `argv[3] = w`, `argv[4] = h`, an existing output folder, a
model that loads, and a folder holding the given entries; `unreadable` lists
the stems `imread` fails on, the transforms return and every `imwrite`
succeeds. -/
def sampleEnv (w h : String) (entries : List DirEntry) (unreadable : List String) : Env :=
  { argv := ["wallpaper", "in", "out", w, h, "FSRCNN_x4.pb"]
    outputFolderExists := true
    createDirectoriesOk := true
    modelLoads := true
    inputDir := some entries
    imreadOk := fun p => !unreadable.contains p.stem
    transformOk := fun _ => true
    imwriteThrows := fun _ => false
    imwriteOk := fun _ => true }

/-- The run `sampleEnv w h entries []` in which the transforms of the image
with stem `stem` throw. -/
def sampleEnvThrowing (w h : String) (entries : List DirEntry) (stem : String) : Env :=
  { sampleEnv w h entries [] with transformOk := fun p => p.stem != stem }

/-- A folder with a file `broken.png` and a file `photo.JPG`. -/
def twoFiles : List DirEntry :=
  [⟨⟨"broken", ".png"⟩, true⟩, ⟨⟨"photo", ".JPG"⟩, true⟩]


/-- A model that scales by pixel replication (nearest neighbour) by the factor `s`. -/
def nearestModel (s : Nat) : DnnSuperResImpl :=
  { getScale := s
    upsample := fun m => some ⟨m.rows * s, m.cols * s, fun i j => m.px (i / s) (j / s)⟩ }

/-- A `rows x cols` image whose pixel at `(i, j)` records `i` and `j`. -/
def gradientImage (rows cols : Nat) : Mat :=
  ⟨rows, cols, fun i j => (Fin.ofNat i, Fin.ofNat j, 0)⟩

/-! ## Theorems -/

theorem lt_ceilDiv_iff {n t : Nat} (ht : 0 < t) (i : Nat) :
    i < ceilDiv n t ↔ i * t < n := by
  unfold ceilDiv
  rw [Nat.lt_iff_add_one_le, Nat.le_div_iff_mul_le ht, Nat.add_mul]
  omega

theorem copyTo_rows {tile dst d : Mat} {r : Rect} (h : tile.copyTo dst r = some d) :
    d.rows = dst.rows ∧ d.cols = dst.cols := by
  unfold Mat.copyTo at h
  split at h
  · cases h; exact ⟨rfl, rfl⟩
  · cases h

theorem pasteTile_dims (sr : DnnSuperResImpl) (src dst : Mat) (r : Rect) :
    (pasteTile sr src dst r).rows = dst.rows ∧ (pasteTile sr src dst r).cols = dst.cols := by
  unfold pasteTile
  split
  · exact ⟨rfl, rfl⟩
  · split
    · exact ⟨rfl, rfl⟩
    · split
      · exact ⟨rfl, rfl⟩
      · rename_i h; exact copyTo_rows h

theorem foldl_pasteTile_dims (sr : DnnSuperResImpl) (src : Mat) (l : List Rect) (dst : Mat) :
    (l.foldl (pasteTile sr src) dst).rows = dst.rows ∧
      (l.foldl (pasteTile sr src) dst).cols = dst.cols := by
  induction l generalizing dst with
  | nil => exact ⟨rfl, rfl⟩
  | cons a l ih =>
    simp only [List.foldl_cons]
    obtain ⟨h1, h2⟩ := ih (pasteTile sr src dst a)
    obtain ⟨h3, h4⟩ := pasteTile_dims sr src dst a
    exact ⟨h1.trans h3, h2.trans h4⟩

theorem roi_tile (src : Mat) (tileSize x y : Nat) (hx : x < src.cols) (hy : y < src.rows) :
    src.roi ⟨x, y, min tileSize (src.cols - x), min tileSize (src.rows - y)⟩ =
      some { rows := min tileSize (src.rows - y), cols := min tileSize (src.cols - x),
             px := fun i j => src.px (y + i) (x + j) } := by
  unfold Mat.roi
  rw [if_pos]
  constructor <;> simp only <;> omega

theorem copyTo_scaled_some (o dst : Mat) (W H w h x y s : Nat)
    (hr : dst.rows = H * s) (hc : dst.cols = W * s)
    (hor : o.rows = h * s) (hoc : o.cols = w * s) (hx : x + w ≤ W) (hy : y + h ≤ H) :
    ∃ d, o.copyTo dst ⟨x * s, y * s, o.cols, o.rows⟩ = some d := by
  unfold Mat.copyTo
  rw [if_pos]
  · exact ⟨_, rfl⟩
  · simp only [hr, hc, hor, hoc, ← Nat.add_mul]
    exact ⟨Nat.mul_le_mul_right s hx, Nat.mul_le_mul_right s hy⟩

theorem tileBody_eq (sr : DnnSuperResImpl) (hsr : ScalesExactly sr) (src : Mat)
    (tileSize x y : Nat) (hx : x < src.cols) (hy : y < src.rows) (dst : Mat)
    (hr : dst.rows = src.rows * sr.getScale) (hc : dst.cols = src.cols * sr.getScale)
    (calls : List Rect) :
    tileBody sr src tileSize x y dst calls =
      ⟨.done,
        pasteTile sr src dst ⟨x, y, min tileSize (src.cols - x), min tileSize (src.rows - y)⟩,
        calls ++ [⟨x, y, min tileSize (src.cols - x), min tileSize (src.rows - y)⟩]⟩ := by
  obtain ⟨o, ho, hor, hoc⟩ :=
    hsr ⟨min tileSize (src.rows - y), min tileSize (src.cols - x), fun i j => src.px (y + i) (x + j)⟩
  obtain ⟨d, hd⟩ := copyTo_scaled_some o dst src.cols src.rows
    (min tileSize (src.cols - x)) (min tileSize (src.rows - y)) x y sr.getScale
    hr hc hor hoc (by omega) (by omega)
  simp only [tileBody, pasteTile, roi_tile src tileSize x y hx hy, ho, hd]

theorem tileRow_eq (sr : DnnSuperResImpl) (hsr : ScalesExactly sr) (src : Mat)
    (tileSize : Nat) (hT : 0 < tileSize) (j : Nat) (hj : j * tileSize < src.rows) :
    ∀ (k i fuel : Nat) (dst : Mat) (calls : List Rect),
      k + i = ceilDiv src.cols tileSize → k < fuel →
      dst.rows = src.rows * sr.getScale → dst.cols = src.cols * sr.getScale →
      tileRow sr src tileSize (j * tileSize) fuel (i * tileSize) dst calls =
        ⟨.done,
          ((List.range' i k).map (fun i => tileAt src tileSize i j)).foldl (pasteTile sr src) dst,
          calls ++ (List.range' i k).map (fun i => tileAt src tileSize i j)⟩ := by
  intro k
  induction k with
  | zero =>
    intro i fuel dst calls hk hfuel _ _
    obtain ⟨f, rfl⟩ : ∃ f, fuel = f + 1 := ⟨fuel - 1, by omega⟩
    have hi : ¬ i * tileSize < src.cols := by
      rw [← lt_ceilDiv_iff hT]; omega
    simp [tileRow, hi]
  | succ k ih =>
    intro i fuel dst calls hk hfuel hr hc
    obtain ⟨f, rfl⟩ : ∃ f, fuel = f + 1 := ⟨fuel - 1, by omega⟩
    have hi : i * tileSize < src.cols := by
      rw [← lt_ceilDiv_iff hT]; omega
    have hd := pasteTile_dims sr src dst (tileAt src tileSize i j)
    have hstep : i * tileSize + tileSize = (i + 1) * tileSize := by rw [Nat.add_mul, Nat.one_mul]
    have hbody : tileBody sr src tileSize (i * tileSize) (j * tileSize) dst calls =
        ⟨.done, pasteTile sr src dst (tileAt src tileSize i j),
          calls ++ [tileAt src tileSize i j]⟩ :=
      tileBody_eq sr hsr src tileSize (i * tileSize) (j * tileSize) hi hj dst hr hc calls
    rw [tileRow, if_pos hi]
    simp only [hbody, hstep]
    rw [ih (i + 1) f _ _ (by omega) (by omega) (hd.1.trans hr) (hd.2.trans hc)]
    simp [List.range'_succ]

theorem tileRow_full (sr : DnnSuperResImpl) (hsr : ScalesExactly sr) (src : Mat)
    (tileSize : Nat) (hT : 0 < tileSize) (j : Nat) (hj : j * tileSize < src.rows)
    (fuel : Nat) (hfuel : ceilDiv src.cols tileSize < fuel) (dst : Mat) (calls : List Rect)
    (hr : dst.rows = src.rows * sr.getScale) (hc : dst.cols = src.cols * sr.getScale) :
    tileRow sr src tileSize (j * tileSize) fuel 0 dst calls =
      ⟨.done, (tileRowList src tileSize j).foldl (pasteTile sr src) dst,
        calls ++ tileRowList src tileSize j⟩ := by
  have h := tileRow_eq sr hsr src tileSize hT j hj (ceilDiv src.cols tileSize) 0 fuel dst calls
    (by omega) hfuel hr hc
  rw [Nat.zero_mul] at h
  rw [h, tileRowList, List.range_eq_range']

theorem tileRows_eq (sr : DnnSuperResImpl) (hsr : ScalesExactly sr) (src : Mat)
    (tileSize : Nat) (hT : 0 < tileSize) (rowFuel : Nat)
    (hrow : ceilDiv src.cols tileSize < rowFuel) :
    ∀ (k j fuel : Nat) (dst : Mat) (calls : List Rect),
      k + j = ceilDiv src.rows tileSize → k < fuel →
      dst.rows = src.rows * sr.getScale → dst.cols = src.cols * sr.getScale →
      tileRows sr src tileSize rowFuel fuel (j * tileSize) dst calls =
        ⟨.done,
          ((List.range' j k).flatMap (fun j => tileRowList src tileSize j)).foldl
            (pasteTile sr src) dst,
          calls ++ (List.range' j k).flatMap (fun j => tileRowList src tileSize j)⟩ := by
  intro k
  induction k with
  | zero =>
    intro j fuel dst calls hk hfuel _ _
    obtain ⟨f, rfl⟩ : ∃ f, fuel = f + 1 := ⟨fuel - 1, by omega⟩
    have hj : ¬ j * tileSize < src.rows := by
      rw [← lt_ceilDiv_iff hT]; omega
    simp [tileRows, hj]
  | succ k ih =>
    intro j fuel dst calls hk hfuel hr hc
    obtain ⟨f, rfl⟩ : ∃ f, fuel = f + 1 := ⟨fuel - 1, by omega⟩
    have hj : j * tileSize < src.rows := by
      rw [← lt_ceilDiv_iff hT]; omega
    have hd := foldl_pasteTile_dims sr src (tileRowList src tileSize j) dst
    have hstep : j * tileSize + tileSize = (j + 1) * tileSize := by rw [Nat.add_mul, Nat.one_mul]
    have hbody := tileRow_full sr hsr src tileSize hT j hj rowFuel hrow dst calls hr hc
    rw [tileRows, if_pos hj]
    simp only [hbody, hstep]
    rw [ih (j + 1) f _ _ (by omega) (by omega) (hd.1.trans hr) (hd.2.trans hc)]
    simp [List.range'_succ]

/-- With a positive tile size, a model that scales exactly and enough fuel,
`tileUpscale` finishes, has called the model on the tiles of `tileGrid` in
order, and `dst` is the zero buffer with those tiles pasted in order. -/
theorem tileUpscale_eq (sr : DnnSuperResImpl) (hsr : ScalesExactly sr) (src : Mat)
    (tileSize : Nat) (hT : 0 < tileSize) (fuel : Nat)
    (hfc : ceilDiv src.cols tileSize < fuel) (hfr : ceilDiv src.rows tileSize < fuel) :
    tileUpscale fuel sr src tileSize =
      ⟨.done,
        (tileGrid src tileSize).foldl (pasteTile sr src)
          (Mat.zeros (src.rows * sr.getScale) (src.cols * sr.getScale)),
        tileGrid src tileSize⟩ := by
  have h := tileRows_eq sr hsr src tileSize hT fuel hfc (ceilDiv src.rows tileSize) 0 fuel
    (Mat.zeros (src.rows * sr.getScale) (src.cols * sr.getScale)) [] (by omega) hfr rfl rfl
  rw [Nat.zero_mul] at h
  rw [tileUpscale, h, tileGrid, List.range_eq_range']
  simp

/-! ### Counting lemmas on lists indexed by `List.range` -/

theorem countP_range_unique (q : Nat → Bool) (k : Nat) :
    ∀ n : Nat, (∀ i, i < n → (q i = true ↔ i = k)) →
      List.countP q (List.range n) = if k < n then 1 else 0 := by
  intro n
  induction n with
  | zero => intro _; simp
  | succ n ih =>
    intro hq
    rw [List.range_succ, List.countP_append, ih (fun i hi => hq i (by omega)),
      List.countP_singleton]
    have hn := hq n (by omega)
    by_cases h1 : k < n
    · have : ¬ q n = true := fun h => by have := hn.1 h; omega
      rw [if_pos h1, if_neg this, if_pos (by omega)]
    · by_cases h2 : n = k
      · rw [if_neg h1, if_pos (hn.2 h2), if_pos (by omega)]
      · have : ¬ q n = true := fun h => h2 (hn.1 h)
        rw [if_neg h1, if_neg this, if_neg (by omega)]

theorem countP_flatMap_range_unique {α : Type} (p : α → Bool) (f : Nat → List α) (k : Nat) :
    ∀ n : Nat, (∀ j, j < n → List.countP p (f j) = if j = k then 1 else 0) →
      List.countP p ((List.range n).flatMap f) = if k < n then 1 else 0 := by
  intro n
  induction n with
  | zero => intro _; simp
  | succ n ih =>
    intro hq
    rw [List.range_succ, List.flatMap_append, List.countP_append,
      ih (fun j hj => hq j (by omega)), List.flatMap_singleton, hq n (by omega)]
    by_cases h1 : k < n
    · rw [if_pos h1, if_neg (by omega), if_pos (by omega)]
    · by_cases h2 : n = k
      · rw [if_neg h1, if_pos h2, if_pos (by omega)]
      · rw [if_neg h1, if_neg h2, if_neg (by omega)]

theorem length_flatMap_range {α : Type} (f : Nat → List α) (c : Nat)
    (hf : ∀ j, (f j).length = c) :
    ∀ n : Nat, ((List.range n).flatMap f).length = n * c := by
  intro n
  induction n with
  | zero => simp
  | succ n ih =>
    rw [List.range_succ, List.flatMap_append, List.length_append, ih,
      List.flatMap_singleton, hf n, Nat.succ_mul]

theorem band_iff_eq_div {t : Nat} (ht : 0 < t) (i p : Nat) :
    (i * t ≤ p ∧ p < i * t + t) ↔ i = p / t := by
  constructor
  · rintro ⟨h1, h2⟩
    exact (Nat.div_eq_of_lt_le h1 (by rw [Nat.add_mul, Nat.one_mul]; exact h2)).symm
  · rintro rfl
    exact ⟨Nat.div_mul_le_self p t, Nat.lt_div_mul_add ht⟩

/-! ### The tile grid -/

theorem mem_tileGrid {src : Mat} {tileSize : Nat} (hT : 0 < tileSize) (t : Rect) :
    t ∈ tileGrid src tileSize ↔
      ∃ i j, i * tileSize < src.cols ∧ j * tileSize < src.rows ∧ t = tileAt src tileSize i j := by
  simp only [tileGrid, tileRowList, List.mem_flatMap, List.mem_map, List.mem_range,
    lt_ceilDiv_iff hT]
  constructor
  · rintro ⟨j, hj, i, hi, rfl⟩
    exact ⟨i, j, hi, hj, rfl⟩
  · rintro ⟨i, j, hi, hj, rfl⟩
    exact ⟨j, hj, i, hi, rfl⟩

/-- If, among the tiles of the grid, the predicate `p` holds exactly at the
tile of indices `(i0, j0)`, then exactly one tile of the grid satisfies `p`. -/
theorem countP_tileGrid (src : Mat) (tileSize : Nat) (hT : 0 < tileSize) (p : Rect → Bool)
    (i0 j0 : Nat) (hi0 : i0 * tileSize < src.cols) (hj0 : j0 * tileSize < src.rows)
    (hp : ∀ i j, i * tileSize < src.cols → j * tileSize < src.rows →
      (p (tileAt src tileSize i j) = true ↔ i = i0 ∧ j = j0)) :
    List.countP p (tileGrid src tileSize) = 1 := by
  have hi0' := (lt_ceilDiv_iff hT i0).2 hi0
  have hj0' := (lt_ceilDiv_iff hT j0).2 hj0
  unfold tileGrid
  rw [countP_flatMap_range_unique p _ j0, if_pos hj0']
  intro j hj
  have hj' := (lt_ceilDiv_iff hT j).1 hj
  unfold tileRowList
  rw [List.countP_map]
  by_cases hjj : j = j0
  · rw [if_pos hjj, countP_range_unique _ i0, if_pos hi0']
    intro i hi
    have := hp i j ((lt_ceilDiv_iff hT i).1 hi) hj'
    simp only [Function.comp]
    rw [this]
    exact ⟨fun h => h.1, fun h => ⟨h, hjj⟩⟩
  · rw [if_neg hjj, countP_range_unique _ (ceilDiv src.cols tileSize), if_neg (by omega)]
    intro i hi
    have := hp i j ((lt_ceilDiv_iff hT i).1 hi) hj'
    simp only [Function.comp]
    rw [this]
    exact ⟨fun h => absurd h.2 hjj, fun h => by omega⟩

theorem tileAt_contains_iff (src : Mat) (tileSize : Nat) (hT : 0 < tileSize) (i j px py : Nat)
    (hi : i * tileSize < src.cols) (hj : j * tileSize < src.rows)
    (hpx : px < src.cols) (hpy : py < src.rows) :
    (tileAt src tileSize i j).contains px py = true ↔ i = px / tileSize ∧ j = py / tileSize := by
  rw [← band_iff_eq_div hT, ← band_iff_eq_div hT]
  simp only [tileAt, Rect.contains, Bool.and_eq_true, decide_eq_true_eq]
  omega

/-! ### The tiles visited by a finished run, for an arbitrary model -/

theorem tileBody_calls (sr : DnnSuperResImpl) (src : Mat) (tileSize x y : Nat) (dst : Mat)
    (calls : List Rect) (h : (tileBody sr src tileSize x y dst calls).status = .done) :
    (tileBody sr src tileSize x y dst calls).calls =
      calls ++ [⟨x, y, min tileSize (src.cols - x), min tileSize (src.rows - y)⟩] := by
  unfold tileBody at h ⊢
  simp only at h ⊢
  split <;> rename_i h1 <;> simp only [h1] at h
  · cases h
  · split <;> rename_i h2 <;> simp only [h2] at h
    · cases h
    · split <;> rename_i h3 <;> simp only [h3] at h
      · cases h
      · rfl

theorem tileRow_calls_of_done (sr : DnnSuperResImpl) (src : Mat) (tileSize : Nat)
    (hT : 0 < tileSize) (j : Nat) :
    ∀ (fuel i : Nat) (dst : Mat) (calls : List Rect),
      (tileRow sr src tileSize (j * tileSize) fuel (i * tileSize) dst calls).status = .done →
      (tileRow sr src tileSize (j * tileSize) fuel (i * tileSize) dst calls).calls =
        calls ++ (List.range' i (ceilDiv src.cols tileSize - i)).map
          (fun i => tileAt src tileSize i j) := by
  intro fuel
  induction fuel with
  | zero => intro i dst calls h; simp [tileRow] at h
  | succ f ih =>
    intro i dst calls h
    have hstep : i * tileSize + tileSize = (i + 1) * tileSize := by rw [Nat.add_mul, Nat.one_mul]
    rw [tileRow] at h ⊢
    by_cases hi : i * tileSize < src.cols
    · have hi' := (lt_ceilDiv_iff hT i).2 hi
      rw [if_pos hi] at h ⊢
      simp only at h ⊢
      cases hs : (tileBody sr src tileSize (i * tileSize) (j * tileSize) dst calls).status with
      | done =>
        simp only [hs, hstep] at h ⊢
        rw [ih (i + 1) _ _ h, tileBody_calls _ _ _ _ _ _ _ hs]
        obtain ⟨m, hm⟩ : ∃ m, ceilDiv src.cols tileSize - i = m + 1 :=
          ⟨ceilDiv src.cols tileSize - i - 1, by omega⟩
        have hm' : ceilDiv src.cols tileSize - (i + 1) = m := by omega
        rw [hm, hm', List.range'_succ]
        simp [tileAt]
      | threw => simp only [hs] at h; cases h
      | outOfFuel => simp only [hs] at h; cases h
    · have hi' : ¬ i < ceilDiv src.cols tileSize := fun h => hi ((lt_ceilDiv_iff hT i).1 h)
      rw [if_neg hi]
      have : ceilDiv src.cols tileSize - i = 0 := by omega
      simp [this]

theorem tileRows_calls_of_done (sr : DnnSuperResImpl) (src : Mat) (tileSize : Nat)
    (hT : 0 < tileSize) (rowFuel : Nat) :
    ∀ (fuel j : Nat) (dst : Mat) (calls : List Rect),
      (tileRows sr src tileSize rowFuel fuel (j * tileSize) dst calls).status = .done →
      (tileRows sr src tileSize rowFuel fuel (j * tileSize) dst calls).calls =
        calls ++ (List.range' j (ceilDiv src.rows tileSize - j)).flatMap
          (fun j => tileRowList src tileSize j) := by
  intro fuel
  induction fuel with
  | zero => intro j dst calls h; simp [tileRows] at h
  | succ f ih =>
    intro j dst calls h
    have hstep : j * tileSize + tileSize = (j + 1) * tileSize := by rw [Nat.add_mul, Nat.one_mul]
    rw [tileRows] at h ⊢
    by_cases hj : j * tileSize < src.rows
    · have hj' := (lt_ceilDiv_iff hT j).2 hj
      rw [if_pos hj] at h ⊢
      simp only at h ⊢
      cases hs : (tileRow sr src tileSize (j * tileSize) rowFuel 0 dst calls).status with
      | done =>
        simp only [hs, hstep] at h ⊢
        have hrow := tileRow_calls_of_done sr src tileSize hT j rowFuel 0 dst calls
        rw [Nat.zero_mul, Nat.sub_zero, ← List.range_eq_range'] at hrow
        rw [ih (j + 1) _ _ h, hrow hs]
        obtain ⟨m, hm⟩ : ∃ m, ceilDiv src.rows tileSize - j = m + 1 :=
          ⟨ceilDiv src.rows tileSize - j - 1, by omega⟩
        have hm' : ceilDiv src.rows tileSize - (j + 1) = m := by omega
        rw [hm, hm', List.range'_succ]
        simp [tileRowList]
      | threw => simp only [hs] at h; cases h
      | outOfFuel => simp only [hs] at h; cases h
    · have hj' : ¬ j < ceilDiv src.rows tileSize := fun h => hj ((lt_ceilDiv_iff hT j).1 h)
      rw [if_neg hj]
      have : ceilDiv src.rows tileSize - j = 0 := by omega
      simp [this]

/-- Whatever the model does, a run of `tileUpscale` with a positive tile size
that finishes has called the model on exactly the tiles of `tileGrid`, in order. -/
theorem tileUpscale_calls_of_done (sr : DnnSuperResImpl) (src : Mat) (tileSize : Nat)
    (hT : 0 < tileSize) (fuel : Nat)
    (h : (tileUpscale fuel sr src tileSize).status = .done) :
    (tileUpscale fuel sr src tileSize).calls = tileGrid src tileSize := by
  have := tileRows_calls_of_done sr src tileSize hT fuel fuel 0
    (Mat.zeros (src.rows * sr.getScale) (src.cols * sr.getScale)) []
  rw [Nat.zero_mul, Nat.sub_zero, ← List.range_eq_range'] at this
  unfold tileUpscale at h ⊢
  rw [this h, tileGrid]
  rfl

theorem nearestModel_scalesExactly (s : Nat) : ScalesExactly (nearestModel s) :=
  fun _ => ⟨_, rfl, rfl, rfl⟩

/-! ### C1: the visited tiles partition the source image -/

/-- C1. For a positive tile edge, a run of `tileUpscale` that finishes has
visited tiles that partition the source pixel grid: every visited tile has its
origin on the tile lattice, width `min(T, W - x)` and height `min(T, H - y)`,
positive width and height, lies inside the source, and every source pixel lies
in exactly one visited tile.  The run does finish when the model scales
exactly and the fuel exceeds the number of tiles per row and per column. -/
theorem tileUpscale_tiles_partition (sr : DnnSuperResImpl) (src : Mat) (tileSize : Nat)
    (hT : 0 < tileSize) (fuel : Nat) :
    (ScalesExactly sr → ceilDiv src.cols tileSize < fuel → ceilDiv src.rows tileSize < fuel →
      (tileUpscale fuel sr src tileSize).status = .done) ∧
    ((tileUpscale fuel sr src tileSize).status = .done →
      (∀ t ∈ (tileUpscale fuel sr src tileSize).calls,
        tileSize ∣ t.x ∧ tileSize ∣ t.y ∧
        t.width = min tileSize (src.cols - t.x) ∧ t.height = min tileSize (src.rows - t.y) ∧
        0 < t.width ∧ 0 < t.height ∧
        t.x + t.width ≤ src.cols ∧ t.y + t.height ≤ src.rows) ∧
      (∀ px py, px < src.cols → py < src.rows →
        List.countP (fun t => t.contains px py) (tileUpscale fuel sr src tileSize).calls = 1)) := by
  refine ⟨fun hsr hfc hfr => ?_, fun hdone => ?_⟩
  · rw [tileUpscale_eq sr hsr src tileSize hT fuel hfc hfr]
  · rw [tileUpscale_calls_of_done sr src tileSize hT fuel hdone]
    refine ⟨fun t ht => ?_, fun px py hpx hpy => ?_⟩
    · obtain ⟨i, j, hi, hj, rfl⟩ := (mem_tileGrid hT t).1 ht
      simp only [tileAt]
      refine ⟨Dvd.intro_left i rfl, Dvd.intro_left j rfl, trivial, trivial, ?_, ?_, ?_, ?_⟩ <;> omega
    · have hi0 : px / tileSize * tileSize < src.cols :=
        Nat.lt_of_le_of_lt (Nat.div_mul_le_self px tileSize) hpx
      have hj0 : py / tileSize * tileSize < src.rows :=
        Nat.lt_of_le_of_lt (Nat.div_mul_le_self py tileSize) hpy
      exact countP_tileGrid src tileSize hT _ (px / tileSize) (py / tileSize) hi0 hj0
        (fun i j hi hj => tileAt_contains_iff src tileSize hT i j px py hi hj hpx hpy)

/-- C1 at a 5 x 3 image with tile edge 2 and the pixel-replicating model:
the run finishes and every source pixel is in exactly one visited tile. -/
theorem tileUpscale_tiles_partition_witness :
    (tileUpscale 4 (nearestModel 2) (gradientImage 3 5) 2).status = .done ∧
      ∀ px py, px < 5 → py < 3 →
        List.countP (fun t => t.contains px py)
          (tileUpscale 4 (nearestModel 2) (gradientImage 3 5) 2).calls = 1 :=
  have h := tileUpscale_tiles_partition (nearestModel 2) (gradientImage 3 5) 2 (by decide) 4
  have hd := h.1 (nearestModel_scalesExactly 2) (by decide) (by decide)
  ⟨hd, (h.2 hd).2⟩

/-! ### C2: the dimensions of the output buffer -/

theorem tileBody_dims (sr : DnnSuperResImpl) (src : Mat) (tileSize x y : Nat) (dst : Mat)
    (calls : List Rect) :
    (tileBody sr src tileSize x y dst calls).dst.rows = dst.rows ∧
      (tileBody sr src tileSize x y dst calls).dst.cols = dst.cols := by
  unfold tileBody
  simp only
  split
  · exact ⟨rfl, rfl⟩
  · split
    · exact ⟨rfl, rfl⟩
    · split
      · exact ⟨rfl, rfl⟩
      · rename_i h; exact copyTo_rows h

theorem tileRow_dims (sr : DnnSuperResImpl) (src : Mat) (tileSize y : Nat) :
    ∀ (fuel x : Nat) (dst : Mat) (calls : List Rect),
      (tileRow sr src tileSize y fuel x dst calls).dst.rows = dst.rows ∧
        (tileRow sr src tileSize y fuel x dst calls).dst.cols = dst.cols := by
  intro fuel
  induction fuel with
  | zero => intro x dst calls; exact ⟨rfl, rfl⟩
  | succ f ih =>
    intro x dst calls
    have hb := tileBody_dims sr src tileSize x y dst calls
    rw [tileRow]
    split
    · simp only
      split
      · have := ih (x + tileSize) (tileBody sr src tileSize x y dst calls).dst
          (tileBody sr src tileSize x y dst calls).calls
        exact ⟨this.1.trans hb.1, this.2.trans hb.2⟩
      · exact hb
    · exact ⟨rfl, rfl⟩

theorem tileRows_dims (sr : DnnSuperResImpl) (src : Mat) (tileSize rowFuel : Nat) :
    ∀ (fuel y : Nat) (dst : Mat) (calls : List Rect),
      (tileRows sr src tileSize rowFuel fuel y dst calls).dst.rows = dst.rows ∧
        (tileRows sr src tileSize rowFuel fuel y dst calls).dst.cols = dst.cols := by
  intro fuel
  induction fuel with
  | zero => intro y dst calls; exact ⟨rfl, rfl⟩
  | succ f ih =>
    intro y dst calls
    have hb := tileRow_dims sr src tileSize y rowFuel 0 dst calls
    rw [tileRows]
    split
    · simp only
      split
      · have := ih (y + tileSize) (tileRow sr src tileSize y rowFuel 0 dst calls).dst
          (tileRow sr src tileSize y rowFuel 0 dst calls).calls
        exact ⟨this.1.trans hb.1, this.2.trans hb.2⟩
      · exact hb
    · exact ⟨rfl, rfl⟩

theorem tileUpscale_dst_dims (fuel : Nat) (sr : DnnSuperResImpl) (src : Mat) (tileSize : Nat) :
    (tileUpscale fuel sr src tileSize).dst.cols = src.cols * sr.getScale ∧
      (tileUpscale fuel sr src tileSize).dst.rows = src.rows * sr.getScale := by
  have := tileRows_dims sr src tileSize fuel fuel 0
    (Mat.zeros (src.rows * sr.getScale) (src.cols * sr.getScale)) []
  exact ⟨this.2, this.1⟩

/-- C2. Whatever the model (its scale factor, whether its calls return or
throw, and the sizes of what they return), whatever the tile size and however
far the loops have run, the buffer `dst` of `tileUpscale` has exactly
`src.cols * scale` columns and `src.rows * scale` rows. -/
theorem tileUpscale_dims (fuel : Nat) (sr : DnnSuperResImpl) (src : Mat) (tileSize : Nat) :
    (tileUpscale fuel sr src tileSize).dst.cols = src.cols * sr.getScale ∧
      (tileUpscale fuel sr src tileSize).dst.rows = src.rows * sr.getScale :=
  tileUpscale_dst_dims fuel sr src tileSize

/-! ### C4: number of tiles, row and column sums -/

theorem length_tileGrid (src : Mat) (tileSize : Nat) :
    (tileGrid src tileSize).length = ceilDiv src.cols tileSize * ceilDiv src.rows tileSize := by
  unfold tileGrid
  rw [length_flatMap_range _ (ceilDiv src.cols tileSize) (fun j => by simp [tileRowList]),
    Nat.mul_comm]

theorem sum_min_range (t w : Nat) :
    ∀ n : Nat, ((List.range n).map (fun i => min t (w - i * t))).sum = min (n * t) w := by
  intro n
  induction n with
  | zero => simp
  | succ n ih =>
    rw [List.range_succ, List.map_append, List.sum_append, ih, Nat.succ_mul]
    simp only [List.map_cons, List.map_nil, List.sum_cons, List.sum_nil]
    omega

theorem sum_min_ceilDiv {t : Nat} (ht : 0 < t) (w : Nat) :
    ((List.range (ceilDiv w t)).map (fun i => min t (w - i * t))).sum = w := by
  rw [sum_min_range]
  have : ¬ ceilDiv w t * t < w := fun h => by
    have := (lt_ceilDiv_iff ht (ceilDiv w t)).2 h
    omega
  omega

theorem flatMap_range_ite {α : Type} (f : Nat → List α) (k : Nat) :
    ∀ n : Nat, (List.range n).flatMap (fun j => if j = k then f j else []) =
      if k < n then f k else [] := by
  intro n
  induction n with
  | zero => simp
  | succ n ih =>
    rw [List.range_succ, List.flatMap_append, ih, List.flatMap_singleton]
    by_cases h1 : k < n
    · rw [if_pos h1, if_neg (by omega), if_pos (by omega), List.append_nil]
    · by_cases h2 : n = k
      · subst h2; rw [if_neg h1, if_pos rfl, if_pos (by omega), List.nil_append]
      · rw [if_neg h1, if_neg h2, if_neg (by omega), List.append_nil]

theorem filter_map_range_unique {α : Type} (p : α → Bool) (f : Nat → α) (k : Nat) :
    ∀ n : Nat, (∀ i, i < n → (p (f i) = true ↔ i = k)) →
      ((List.range n).map f).filter p = if k < n then [f k] else [] := by
  intro n
  induction n with
  | zero => intro _; simp
  | succ n ih =>
    intro hp
    rw [List.range_succ, List.map_append, List.filter_append, ih (fun i hi => hp i (by omega))]
    have hn := hp n (by omega)
    by_cases h1 : k < n
    · have : ¬ p (f n) = true := fun h => by have := hn.1 h; omega
      simp [h1, this, show k < n + 1 by omega]
    · by_cases h2 : n = k
      · subst h2
        simp [hn.2 rfl]
      · have : ¬ p (f n) = true := fun h => h2 (hn.1 h)
        simp [h1, this, show ¬ k < n + 1 by omega]

theorem flatMap_singleton_map {α β : Type} (g : α → β) (l : List α) :
    l.flatMap (fun a => [g a]) = l.map g := by
  induction l with
  | nil => rfl
  | cons a l ih => simp [List.flatMap_cons, ih]

/-- The tiles of the grid in the row of origin `j * tileSize` are row `j`. -/
theorem filter_row_tileGrid (src : Mat) (tileSize : Nat) (hT : 0 < tileSize) (j : Nat)
    (hj : j * tileSize < src.rows) :
    (tileGrid src tileSize).filter (fun t => decide (t.y = j * tileSize)) =
      tileRowList src tileSize j := by
  unfold tileGrid
  rw [List.filter_flatMap]
  have hrow : ∀ j', (tileRowList src tileSize j').filter (fun t => decide (t.y = j * tileSize)) =
      if j' = j then tileRowList src tileSize j' else [] := by
    intro j'
    by_cases hjj : j' = j
    · rw [if_pos hjj, List.filter_eq_self]
      intro t ht
      simp only [tileRowList, List.mem_map] at ht
      obtain ⟨i, _, rfl⟩ := ht
      simp [tileAt, hjj]
    · rw [if_neg hjj, List.filter_eq_nil_iff]
      intro t ht
      simp only [tileRowList, List.mem_map] at ht
      obtain ⟨i, _, rfl⟩ := ht
      simp only [tileAt, decide_eq_true_eq]
      exact fun h => hjj (Nat.eq_of_mul_eq_mul_right hT h)
  simp only [hrow]
  rw [flatMap_range_ite, if_pos ((lt_ceilDiv_iff hT j).2 hj)]

/-- The tiles of the grid in the column of origin `i * tileSize` are the
tiles `(i, 0), (i, 1), ...` of that column. -/
theorem filter_col_tileGrid (src : Mat) (tileSize : Nat) (hT : 0 < tileSize) (i : Nat)
    (hi : i * tileSize < src.cols) :
    (tileGrid src tileSize).filter (fun t => decide (t.x = i * tileSize)) =
      (List.range (ceilDiv src.rows tileSize)).map (fun j => tileAt src tileSize i j) := by
  unfold tileGrid
  rw [List.filter_flatMap]
  have hrow : ∀ j', (tileRowList src tileSize j').filter (fun t => decide (t.x = i * tileSize)) =
      [tileAt src tileSize i j'] := by
    intro j'
    unfold tileRowList
    rw [filter_map_range_unique _ _ i, if_pos ((lt_ceilDiv_iff hT i).2 hi)]
    intro i' _
    simp only [tileAt, decide_eq_true_eq]
    exact ⟨fun h => Nat.eq_of_mul_eq_mul_right hT h, fun h => by rw [h]⟩
  simp only [hrow]
  exact flatMap_singleton_map _ _

theorem tileGrid_2000_1500 (src : Mat) (hc : src.cols = 2000) (hr : src.rows = 1500) :
    tileGrid src 1024 =
      [⟨0, 0, 1024, 1024⟩, ⟨1024, 0, 976, 1024⟩, ⟨0, 1024, 1024, 476⟩, ⟨1024, 1024, 976, 476⟩] := by
  have h2 : List.range 2 = [0, 1] := rfl
  have hx : ceilDiv 2000 1024 = 2 := rfl
  have hy : ceilDiv 1500 1024 = 2 := rfl
  simp [tileGrid, tileRowList, tileAt, hc, hr, hx, hy, h2]

/-- C4. For a positive tile edge `T`, a run of `tileUpscale` on a `W x H`
source that finishes has run the model on exactly `ceil(W/T) * ceil(H/T)`
tiles, the widths of the tiles of each row add up to `W` and the heights of the
tiles of each column add up to `H`; the run does finish when the model scales
exactly and the fuel exceeds `ceil(W/T)` and `ceil(H/T)`.  For a 2000 x 1500
source, tile edge 1024 and scale 4 the tiles are the four tiles of widths
1024, 976 and heights 1024, 476, and the output is 8000 x 6000. -/
theorem tileUpscale_tile_count (sr : DnnSuperResImpl) (src : Mat) (tileSize : Nat)
    (hT : 0 < tileSize) (fuel : Nat) :
    (ScalesExactly sr → ceilDiv src.cols tileSize < fuel → ceilDiv src.rows tileSize < fuel →
      (tileUpscale fuel sr src tileSize).status = .done) ∧
    ((tileUpscale fuel sr src tileSize).status = .done →
      (tileUpscale fuel sr src tileSize).calls.length =
        ceilDiv src.cols tileSize * ceilDiv src.rows tileSize ∧
      (∀ j, j * tileSize < src.rows →
        ((((tileUpscale fuel sr src tileSize).calls.filter
          (fun t => decide (t.y = j * tileSize))).map Rect.width).sum = src.cols)) ∧
      (∀ i, i * tileSize < src.cols →
        ((((tileUpscale fuel sr src tileSize).calls.filter
          (fun t => decide (t.x = i * tileSize))).map Rect.height).sum = src.rows))) ∧
    (src.cols = 2000 → src.rows = 1500 → tileSize = 1024 → sr.getScale = 4 →
      (tileUpscale fuel sr src tileSize).status = .done →
      (tileUpscale fuel sr src tileSize).calls =
        [⟨0, 0, 1024, 1024⟩, ⟨1024, 0, 976, 1024⟩, ⟨0, 1024, 1024, 476⟩,
          ⟨1024, 1024, 976, 476⟩] ∧
      (tileUpscale fuel sr src tileSize).dst.cols = 8000 ∧
      (tileUpscale fuel sr src tileSize).dst.rows = 6000) := by
  refine ⟨fun hsr hfc hfr => ?_, fun hdone => ?_, fun hc hr ht hs hdone => ?_⟩
  · rw [tileUpscale_eq sr hsr src tileSize hT fuel hfc hfr]
  · rw [tileUpscale_calls_of_done sr src tileSize hT fuel hdone]
    refine ⟨length_tileGrid src tileSize, fun j hj => ?_, fun i hi => ?_⟩
    · rw [filter_row_tileGrid src tileSize hT j hj, tileRowList, List.map_map]
      exact sum_min_ceilDiv hT src.cols
    · rw [filter_col_tileGrid src tileSize hT i hi, List.map_map]
      exact sum_min_ceilDiv hT src.rows
  · have hd := tileUpscale_dst_dims fuel sr src tileSize
    rw [tileUpscale_calls_of_done sr src tileSize hT fuel hdone, hd.1, hd.2, hc, hr, hs, ht]
    exact ⟨tileGrid_2000_1500 src hc hr, rfl, rfl⟩

/-- C4 at the 2000 x 1500 image with the pixel-replicating model of scale 4
and tile edge 1024: the run finishes after four tiles with an 8000 x 6000 output. -/
theorem tileUpscale_tile_count_witness :
    (tileUpscale 3 (nearestModel 4) (gradientImage 1500 2000) 1024).status = .done ∧
      (tileUpscale 3 (nearestModel 4) (gradientImage 1500 2000) 1024).calls =
        [⟨0, 0, 1024, 1024⟩, ⟨1024, 0, 976, 1024⟩, ⟨0, 1024, 1024, 476⟩,
          ⟨1024, 1024, 976, 476⟩] ∧
      (tileUpscale 3 (nearestModel 4) (gradientImage 1500 2000) 1024).dst.cols = 8000 ∧
      (tileUpscale 3 (nearestModel 4) (gradientImage 1500 2000) 1024).dst.rows = 6000 :=
  have h := tileUpscale_tile_count (nearestModel 4) (gradientImage 1500 2000) 1024 (by decide) 3
  have hd := h.1 (nearestModel_scalesExactly 4) (by decide) (by decide)
  ⟨hd, h.2.2 rfl rfl rfl rfl hd⟩

/-! ### Pixels of the output buffer -/

theorem pasteTile_px (sr : DnnSuperResImpl) (hsr : ScalesExactly sr) (src dst : Mat) (r : Rect)
    (hin : r.inside src)
    (hr : dst.rows = src.rows * sr.getScale) (hc : dst.cols = src.cols * sr.getScale) :
    ∃ tile o, src.roi r = some tile ∧ sr.upsample tile = some o ∧
      ∀ X Y, (pasteTile sr src dst r).px Y X =
        if (destRect sr.getScale r).contains X Y then
          o.px (Y - r.y * sr.getScale) (X - r.x * sr.getScale)
        else dst.px Y X := by
  have hroi : src.roi r =
      some ⟨r.height, r.width, fun i j => src.px (r.y + i) (r.x + j)⟩ := by
    unfold Mat.roi
    exact if_pos hin
  obtain ⟨o, ho, hor, hoc⟩ := hsr ⟨r.height, r.width, fun i j => src.px (r.y + i) (r.x + j)⟩
  refine ⟨_, o, hroi, ho, fun X Y => ?_⟩
  have hfit : r.x * sr.getScale + o.cols ≤ dst.cols ∧ r.y * sr.getScale + o.rows ≤ dst.rows := by
    simp only [hr, hc, hor, hoc, ← Nat.add_mul]
    exact ⟨Nat.mul_le_mul_right _ hin.1, Nat.mul_le_mul_right _ hin.2⟩
  have hrect : (⟨r.x * sr.getScale, r.y * sr.getScale, o.cols, o.rows⟩ : Rect) =
      destRect sr.getScale r := by
    simp only [destRect, hor, hoc]
  simp only [pasteTile, hroi, ho, Mat.copyTo, if_pos hfit, hrect]

theorem foldl_pasteTile_px (sr : DnnSuperResImpl) (hsr : ScalesExactly sr) (src : Mat)
    (X Y : Nat) (t : Rect) (l : List Rect) :
    (∀ r ∈ l, r.inside src) → t ∈ l → (destRect sr.getScale t).contains X Y = true →
    (∀ r ∈ l, (destRect sr.getScale r).contains X Y = true → r = t) →
    ∀ dst : Mat, dst.rows = src.rows * sr.getScale → dst.cols = src.cols * sr.getScale →
    ∃ tile o, src.roi t = some tile ∧ sr.upsample tile = some o ∧
      (l.foldl (pasteTile sr src) dst).px Y X =
        o.px (Y - t.y * sr.getScale) (X - t.x * sr.getScale) := by
  induction l using List.reverseRecOn with
  | nil => intro _ ht; cases ht
  | append_singleton l a ih =>
    intro hin ht hcont huniq dst hr hc
    have hd := foldl_pasteTile_dims sr src l dst
    obtain ⟨tile, o, h1, h2, hpx⟩ := pasteTile_px sr hsr src (l.foldl (pasteTile sr src) dst) a
      (hin a (by simp)) (hd.1.trans hr) (hd.2.trans hc)
    rw [List.foldl_append, List.foldl_cons, List.foldl_nil, hpx]
    by_cases ha : (destRect sr.getScale a).contains X Y = true
    · have hat : a = t := huniq a (by simp) ha
      subst hat
      exact ⟨tile, o, h1, h2, by rw [if_pos ha]⟩
    · rw [if_neg ha]
      have htl : t ∈ l := by
        rcases List.mem_append.1 ht with h | h
        · exact h
        · rw [List.mem_singleton] at h
          subst h
          exact absurd hcont ha
      exact ih (fun r hr => hin r (List.mem_append_left _ hr)) htl hcont
        (fun r hr => huniq r (List.mem_append_left _ hr)) dst hr hc

theorem dest_band (t s w i X : Nat) (hi : i * t < w) (hX : X < w * s) :
    (i * t * s ≤ X ∧ X < i * t * s + min t (w - i * t) * s) ↔
      (i * (t * s) ≤ X ∧ X < i * (t * s) + t * s) := by
  have e1 : i * t * s = i * (t * s) := Nat.mul_assoc i t s
  have key : i * t * s + min t (w - i * t) * s = min (i * t + t) w * s := by
    rw [← Nat.add_mul]
    congr 1
    omega
  rcases Nat.le_total (i * t + t) w with h | h
  · rw [key, Nat.min_eq_left h, Nat.add_mul, e1]
  · have h2 : w * s ≤ (i * t + t) * s := Nat.mul_le_mul_right s h
    rw [Nat.add_mul, e1] at h2
    rw [key, Nat.min_eq_right h, e1]
    constructor <;> rintro ⟨a, _⟩ <;> exact ⟨a, by omega⟩

theorem destRect_tileAt_contains_iff (src : Mat) (tileSize s : Nat) (hT : 0 < tileSize)
    (hs : 0 < s) (i j X Y : Nat)
    (hi : i * tileSize < src.cols) (hj : j * tileSize < src.rows)
    (hX : X < src.cols * s) (hY : Y < src.rows * s) :
    (destRect s (tileAt src tileSize i j)).contains X Y = true ↔
      i = X / (tileSize * s) ∧ j = Y / (tileSize * s) := by
  rw [← band_iff_eq_div (Nat.mul_pos hT hs), ← band_iff_eq_div (Nat.mul_pos hT hs),
    ← dest_band tileSize s src.cols i X hi hX, ← dest_band tileSize s src.rows j Y hj hY]
  simp only [destRect, tileAt, Rect.contains, Bool.and_eq_true, decide_eq_true_eq]
  tauto

theorem destRect_tileAt_inside (src : Mat) (tileSize s i j : Nat)
    (hi : i * tileSize < src.cols) (hj : j * tileSize < src.rows) :
    (destRect s (tileAt src tileSize i j)).x + (destRect s (tileAt src tileSize i j)).width ≤
        src.cols * s ∧
      (destRect s (tileAt src tileSize i j)).y + (destRect s (tileAt src tileSize i j)).height ≤
        src.rows * s := by
  simp only [destRect, tileAt, ← Nat.add_mul]
  exact ⟨Nat.mul_le_mul_right s (by omega), Nat.mul_le_mul_right s (by omega)⟩

theorem div_scaled_lt (t s w X : Nat) (hX : X < w * s) :
    X / (t * s) * t < w := by
  have h1 : X / (t * s) * (t * s) ≤ X := Nat.div_mul_le_self X (t * s)
  rw [← Nat.mul_assoc] at h1
  exact Nat.lt_of_mul_lt_mul_right (Nat.lt_of_le_of_lt h1 hX)

theorem pairwise_of_countP_le_one {α : Type} (p : Nat → Nat → α → Bool) :
    ∀ l : List α, (∀ X Y, List.countP (p X Y) l ≤ 1) →
      l.Pairwise (fun a b => ∀ X Y, ¬ (p X Y a = true ∧ p X Y b = true)) := by
  intro l
  induction l with
  | nil => intro _; exact List.Pairwise.nil
  | cons a l ih =>
    intro h
    rw [List.pairwise_cons]
    constructor
    · rintro b hb X Y ⟨ha, hb'⟩
      have h1 := h X Y
      rw [List.countP_cons_of_pos _ _ ha] at h1
      have h2 : 0 < List.countP (p X Y) l := List.countP_pos_iff.2 ⟨b, hb, hb'⟩
      omega
    · refine ih (fun X Y => ?_)
      have h1 := h X Y
      rw [List.countP_cons] at h1
      omega

theorem countP_dest_tileGrid_inside (src : Mat) (tileSize s : Nat) (hT : 0 < tileSize)
    (hs : 0 < s) (X Y : Nat) (hX : X < src.cols * s) (hY : Y < src.rows * s) :
    List.countP (fun t => (destRect s t).contains X Y) (tileGrid src tileSize) = 1 :=
  countP_tileGrid src tileSize hT _ (X / (tileSize * s)) (Y / (tileSize * s))
    (div_scaled_lt tileSize s src.cols X hX) (div_scaled_lt tileSize s src.rows Y hY)
    (fun i j hi hj => destRect_tileAt_contains_iff src tileSize s hT hs i j X Y hi hj hX hY)

theorem countP_dest_tileGrid_le_one (src : Mat) (tileSize s : Nat) (hT : 0 < tileSize)
    (hs : 0 < s) (X Y : Nat) :
    List.countP (fun t => (destRect s t).contains X Y) (tileGrid src tileSize) ≤ 1 := by
  by_cases h : X < src.cols * s ∧ Y < src.rows * s
  · exact Nat.le_of_eq (countP_dest_tileGrid_inside src tileSize s hT hs X Y h.1 h.2)
  · have : List.countP (fun t => (destRect s t).contains X Y) (tileGrid src tileSize) = 0 := by
      rw [List.countP_eq_zero]
      intro t ht hc
      obtain ⟨i, j, hi, hj, rfl⟩ := (mem_tileGrid hT t).1 ht
      have hin := destRect_tileAt_inside src tileSize s i j hi hj
      simp only [Rect.contains, Bool.and_eq_true, decide_eq_true_eq] at hc
      omega
    omega

/-- C10. For a positive tile edge, a scale of at least 1, a model that returns
for each `w x h` tile an output of exactly `(w*s) x (h*s)` and enough fuel,
`tileUpscale` finishes; every destination rectangle lies inside the
`(W*s) x (H*s)` buffer; the destination rectangles are pairwise disjoint and
cover the buffer; and the output pixel at column `X`, row `Y` is the pixel
`(X - x*s, Y - y*s)` of the model's output for the tile with origin
`x = T * floor(X / (T*s))`, `y = T * floor(Y / (T*s))`, which is a visited tile.
No pixel keeps its initial value: the loops started on any buffer of that
size in place of the zero buffer end with the same pixel. -/
theorem tileUpscale_pixels (sr : DnnSuperResImpl) (hsr : ScalesExactly sr) (src : Mat)
    (tileSize : Nat) (hT : 0 < tileSize) (hs : 1 ≤ sr.getScale) (fuel : Nat)
    (hfc : ceilDiv src.cols tileSize < fuel) (hfr : ceilDiv src.rows tileSize < fuel) :
    (tileUpscale fuel sr src tileSize).status = .done ∧
    (∀ t ∈ (tileUpscale fuel sr src tileSize).calls,
      (destRect sr.getScale t).inside (tileUpscale fuel sr src tileSize).dst) ∧
    (tileUpscale fuel sr src tileSize).calls.Pairwise
      (fun a b => ∀ X Y, ¬ ((destRect sr.getScale a).contains X Y = true ∧
        (destRect sr.getScale b).contains X Y = true)) ∧
    (∀ X Y, X < src.cols * sr.getScale → Y < src.rows * sr.getScale →
      (∃ t ∈ (tileUpscale fuel sr src tileSize).calls,
        (destRect sr.getScale t).contains X Y = true) ∧
      ∃ tile o,
        (⟨tileOrigin tileSize sr.getScale X, tileOrigin tileSize sr.getScale Y,
            min tileSize (src.cols - tileOrigin tileSize sr.getScale X),
            min tileSize (src.rows - tileOrigin tileSize sr.getScale Y)⟩ : Rect) ∈
          (tileUpscale fuel sr src tileSize).calls ∧
        src.roi ⟨tileOrigin tileSize sr.getScale X, tileOrigin tileSize sr.getScale Y,
            min tileSize (src.cols - tileOrigin tileSize sr.getScale X),
            min tileSize (src.rows - tileOrigin tileSize sr.getScale Y)⟩ = some tile ∧
        sr.upsample tile = some o ∧
        (tileUpscale fuel sr src tileSize).dst.px Y X =
          o.px (Y - tileOrigin tileSize sr.getScale Y * sr.getScale)
            (X - tileOrigin tileSize sr.getScale X * sr.getScale) ∧
        ∀ dst0 : Mat, dst0.rows = src.rows * sr.getScale → dst0.cols = src.cols * sr.getScale →
          (tileRows sr src tileSize fuel fuel 0 dst0 []).dst.px Y X =
            o.px (Y - tileOrigin tileSize sr.getScale Y * sr.getScale)
              (X - tileOrigin tileSize sr.getScale X * sr.getScale)) := by
  have hs' : 0 < sr.getScale := hs
  have hloops : ∀ dst0 : Mat, dst0.rows = src.rows * sr.getScale →
      dst0.cols = src.cols * sr.getScale →
      (tileRows sr src tileSize fuel fuel 0 dst0 []).dst =
        (tileGrid src tileSize).foldl (pasteTile sr src) dst0 := by
    intro dst0 h0r h0c
    have h := tileRows_eq sr hsr src tileSize hT fuel hfc (ceilDiv src.rows tileSize) 0 fuel
      dst0 [] (by omega) hfr h0r h0c
    rw [Nat.zero_mul] at h
    rw [h, tileGrid, List.range_eq_range']
  rw [tileUpscale_eq sr hsr src tileSize hT fuel hfc hfr]
  simp only
  have hdims := foldl_pasteTile_dims sr src (tileGrid src tileSize)
    (Mat.zeros (src.rows * sr.getScale) (src.cols * sr.getScale))
  refine ⟨trivial, fun t ht => ?_, ?_, fun X Y hX hY => ⟨?_, ?_⟩⟩
  · obtain ⟨i, j, hi, hj, rfl⟩ := (mem_tileGrid hT t).1 ht
    have := destRect_tileAt_inside src tileSize sr.getScale i j hi hj
    unfold Rect.inside
    rw [hdims.1, hdims.2]
    exact this
  · exact pairwise_of_countP_le_one (fun X Y t => (destRect sr.getScale t).contains X Y) _
      (fun X Y => countP_dest_tileGrid_le_one src tileSize sr.getScale hT hs' X Y)
  · have h1 := countP_dest_tileGrid_inside src tileSize sr.getScale hT hs' X Y hX hY
    have h2 : 0 < List.countP (fun t => (destRect sr.getScale t).contains X Y)
        (tileGrid src tileSize) := by omega
    obtain ⟨t, ht, hc⟩ := List.countP_pos_iff.1 h2
    exact ⟨t, ht, hc⟩
  · have hi0 := div_scaled_lt tileSize sr.getScale src.cols X hX
    have hj0 := div_scaled_lt tileSize sr.getScale src.rows Y hY
    have ht0 : (⟨tileOrigin tileSize sr.getScale X, tileOrigin tileSize sr.getScale Y,
        min tileSize (src.cols - tileOrigin tileSize sr.getScale X),
        min tileSize (src.rows - tileOrigin tileSize sr.getScale Y)⟩ : Rect) =
        tileAt src tileSize (X / (tileSize * sr.getScale)) (Y / (tileSize * sr.getScale)) := by
      simp only [tileOrigin, tileAt, Nat.mul_comm tileSize (_ / _)]
    rw [ht0]
    have hmem : tileAt src tileSize (X / (tileSize * sr.getScale))
        (Y / (tileSize * sr.getScale)) ∈ tileGrid src tileSize :=
      (mem_tileGrid hT _).2 ⟨_, _, hi0, hj0, rfl⟩
    have hcont := (destRect_tileAt_contains_iff src tileSize sr.getScale hT hs' _ _ X Y
      hi0 hj0 hX hY).2 ⟨rfl, rfl⟩
    have hfold := foldl_pasteTile_px sr hsr src X Y _ (tileGrid src tileSize)
      (fun r hr => by
        obtain ⟨i, j, hi, hj, rfl⟩ := (mem_tileGrid hT r).1 hr
        simp only [Rect.inside, tileAt]
        omega)
      hmem hcont
      (fun r hr hc => by
        obtain ⟨i, j, hi, hj, rfl⟩ := (mem_tileGrid hT r).1 hr
        obtain ⟨e1, e2⟩ := (destRect_tileAt_contains_iff src tileSize sr.getScale hT hs'
          i j X Y hi hj hX hY).1 hc
        rw [e1, e2])
    obtain ⟨tile, o, h1, h2, h3⟩ :=
      hfold (Mat.zeros (src.rows * sr.getScale) (src.cols * sr.getScale)) rfl rfl
    refine ⟨tile, o, hmem, h1, h2, ?_, fun dst0 h0r h0c => ?_⟩
    · rw [h3]
      simp only [tileOrigin, tileAt, Nat.mul_comm tileSize (_ / _)]
    · obtain ⟨tile', o', h1', h2', h3'⟩ := hfold dst0 h0r h0c
      rw [h1] at h1'
      cases h1'
      rw [h2] at h2'
      cases h2'
      rw [hloops dst0 h0r h0c, h3']
      simp only [tileOrigin, tileAt, Nat.mul_comm tileSize (_ / _)]

/-- C10 at a 5 x 3 image, tile edge 2 and the pixel-replicating model of
scale 2: the run finishes, the destination rectangles are pairwise disjoint and
every pixel of the 10 x 6 buffer lies in the destination rectangle of a visited tile. -/
theorem tileUpscale_pixels_witness :
    (tileUpscale 4 (nearestModel 2) (gradientImage 3 5) 2).status = .done ∧
    (tileUpscale 4 (nearestModel 2) (gradientImage 3 5) 2).calls.Pairwise
      (fun a b => ∀ X Y, ¬ ((destRect 2 a).contains X Y = true ∧
        (destRect 2 b).contains X Y = true)) ∧
    ∀ X Y, X < 10 → Y < 6 →
      ∃ t ∈ (tileUpscale 4 (nearestModel 2) (gradientImage 3 5) 2).calls,
        (destRect 2 t).contains X Y = true :=
  have h := tileUpscale_pixels (nearestModel 2) (nearestModel_scalesExactly 2)
    (gradientImage 3 5) 2 (by decide) (by decide) 4 (by decide) (by decide)
  ⟨h.1, h.2.2.1, fun X Y hX hY => (h.2.2.2 X Y hX hY).1⟩

theorem tileUpscale_sample_pixel :
    (tileUpscale 4 (nearestModel 2) (gradientImage 3 5) 2).dst.px 5 9 = (2, 4, 0) ∧
    (tileUpscale 4 (nearestModel 2) (gradientImage 3 5) 2).calls =
      [⟨0, 0, 2, 2⟩, ⟨2, 0, 2, 2⟩, ⟨4, 0, 1, 2⟩, ⟨0, 2, 2, 1⟩, ⟨2, 2, 2, 1⟩, ⟨4, 2, 1, 1⟩] ∧
    (tileUpscale 4 (nearestModel 2) (gradientImage 3 5) 0).status = .outOfFuel := by
  refine ⟨by decide, by decide, by decide⟩

/-! ### C3: the single-tile case -/

theorem roi_whole (src : Mat) : src.roi ⟨0, 0, src.cols, src.rows⟩ = some src := by
  cases src
  simp [Mat.roi]

theorem tileGrid_single (src : Mat) (tileSize : Nat) (hc : 0 < src.cols) (hr : 0 < src.rows)
    (hw : src.cols ≤ tileSize) (hh : src.rows ≤ tileSize) :
    tileGrid src tileSize = [⟨0, 0, src.cols, src.rows⟩] := by
  have hx : ceilDiv src.cols tileSize = 1 := by
    unfold ceilDiv
    exact Nat.div_eq_of_lt_le (by omega) (by omega)
  have hy : ceilDiv src.rows tileSize = 1 := by
    unfold ceilDiv
    exact Nat.div_eq_of_lt_le (by omega) (by omega)
  have h1 : List.range 1 = [0] := rfl
  simp [tileGrid, tileRowList, tileAt, hx, hy, h1, Nat.min_eq_right hw, Nat.min_eq_right hh]

theorem tileUpscale_small_done (sr : DnnSuperResImpl) (hsr : ScalesExactly sr) (src : Mat)
    (tileSize : Nat) (hw : src.cols ≤ tileSize) (hh : src.rows ≤ tileSize)
    (fuel : Nat) (hfuel : 2 ≤ fuel) :
    (tileUpscale fuel sr src tileSize).status = .done := by
  by_cases hr : src.rows = 0
  · obtain ⟨f, rfl⟩ : ∃ f, fuel = f + 1 := ⟨fuel - 1, by omega⟩
    simp [tileUpscale, tileRows, hr]
  · have hT : 0 < tileSize := by omega
    have h1 : ceilDiv src.cols tileSize ≤ 1 := by
      unfold ceilDiv
      exact Nat.le_of_lt_succ ((Nat.div_lt_iff_lt_mul hT).2 (by omega))
    have h2 : ceilDiv src.rows tileSize ≤ 1 := by
      unfold ceilDiv
      exact Nat.le_of_lt_succ ((Nat.div_lt_iff_lt_mul hT).2 (by omega))
    rw [tileUpscale_eq sr hsr src tileSize hT fuel (by omega) (by omega)]

/-- C3. For an image whose width and height are both at most the tile edge,
and a model whose output for a `w x h` input has size `(w*s) x (h*s)`,
`tileUpscale` finishes (with fuel for two loop tests) and its output is the
same image as the output of one direct call `sr.upsample(src)`. -/
theorem tileUpscale_single_tile (sr : DnnSuperResImpl) (hsr : ScalesExactly sr) (src : Mat)
    (tileSize : Nat) (hw : src.cols ≤ tileSize) (hh : src.rows ≤ tileSize)
    (fuel : Nat) (hfuel : 2 ≤ fuel) :
    ∃ out, sr.upsample src = some out ∧
      (tileUpscale fuel sr src tileSize).status = .done ∧
      Mat.Same (tileUpscale fuel sr src tileSize).dst out := by
  obtain ⟨out, hout, hor, hoc⟩ := hsr src
  have hd := tileUpscale_dst_dims fuel sr src tileSize
  refine ⟨out, hout, tileUpscale_small_done sr hsr src tileSize hw hh fuel hfuel,
    hd.2.trans hor.symm, hd.1.trans hoc.symm, fun i j hi hj => ?_⟩
  rw [hd.2] at hi
  rw [hd.1] at hj
  have hr : 0 < src.rows := Nat.pos_of_ne_zero (fun h => by rw [h, Nat.zero_mul] at hi; omega)
  have hc : 0 < src.cols := Nat.pos_of_ne_zero (fun h => by rw [h, Nat.zero_mul] at hj; omega)
  have hT : 0 < tileSize := by omega
  have hx : ceilDiv src.cols tileSize < fuel := by
    have := (lt_ceilDiv_iff hT (n := src.cols) 1).1
    have h1 : ¬ 1 < ceilDiv src.cols tileSize := fun h => by have := this h; omega
    omega
  have hy : ceilDiv src.rows tileSize < fuel := by
    have := (lt_ceilDiv_iff hT (n := src.rows) 1).1
    have h1 : ¬ 1 < ceilDiv src.rows tileSize := fun h => by have := this h; omega
    omega
  rw [tileUpscale_eq sr hsr src tileSize hT fuel hx hy, tileGrid_single src tileSize hc hr hw hh]
  obtain ⟨tile, o, h1, h2, hpx⟩ := pasteTile_px sr hsr src
    (Mat.zeros (src.rows * sr.getScale) (src.cols * sr.getScale)) ⟨0, 0, src.cols, src.rows⟩
    ⟨by simp, by simp⟩ rfl rfl
  rw [roi_whole] at h1
  cases h1
  rw [hout] at h2
  cases h2
  simp only [List.foldl_cons, List.foldl_nil]
  rw [hpx, if_pos]
  · simp
  · simp only [destRect, Rect.contains, Bool.and_eq_true, decide_eq_true_eq]
    omega

/-- C3 at a 2 x 2 image with tile edge 1024 and the pixel-replicating model
of scale 4. -/
theorem tileUpscale_single_tile_witness :
    ∃ out, (nearestModel 4).upsample (gradientImage 2 2) = some out ∧
      (tileUpscale 2 (nearestModel 4) (gradientImage 2 2) 1024).status = .done ∧
      Mat.Same (tileUpscale 2 (nearestModel 4) (gradientImage 2 2) 1024).dst out :=
  tileUpscale_single_tile (nearestModel 4) (nearestModel_scalesExactly 4) (gradientImage 2 2)
    1024 (by decide) (by decide) 2 (by decide)

/-! ### C5: the extension filter of the directory scanner -/

theorem tolower_toupper (c : Char) : tolower (toupper c) = tolower c := by
  by_cases h : 97 ≤ c.toNat ∧ c.toNat ≤ 122
  · have hc : c = Char.ofNat c.toNat := (Char.ofNat_toNat c).symm
    generalize c.toNat = n at h hc
    subst hc
    obtain ⟨h1, h2⟩ := h
    interval_cases n <;> decide
  · simp only [toupper, if_neg h]

theorem acceptsExt_iff (e : String) : acceptsExt e = true ↔ lowerExt e ∈ imageExtensions := by
  simp only [acceptsExt, imageExtensions, Bool.or_eq_true, beq_iff_eq, List.mem_cons,
    List.mem_singleton, List.mem_nil_iff, or_false, or_assoc]

theorem map_tolower_of_forall₂ {l1 l2 : List Char}
    (h : List.Forall₂ (fun a b => tolower a = tolower b) l1 l2) :
    l1.map tolower = l2.map tolower := by
  induction h with
  | nil => rfl
  | cons hab _ ih => simp only [List.map_cons, hab, ih]

theorem lowerExt_of_caseVariant {e1 e2 : String} (h : CaseVariant e1 e2) :
    lowerExt e1 = lowerExt e2 := by
  unfold lowerExt
  rw [map_tolower_of_forall₂ h]

theorem caseVariant_refl (e : String) : CaseVariant e e :=
  List.forall₂_same.2 (fun _ _ => rfl)

theorem caseVariant_upper (e : String) : CaseVariant e (String.mk (e.data.map toupper)) := by
  unfold CaseVariant
  simp only [List.forall₂_map_right_iff]
  exact List.forall₂_same.2 (fun c _ => (tolower_toupper c).symm)

theorem mem_collectImages (entries : List DirEntry) (p : Path) :
    p ∈ collectImages entries ↔
      ∃ d ∈ entries, d.path = p ∧ d.is_regular_file = true ∧
        acceptsExt d.path.extension = true := by
  induction entries with
  | nil => simp [collectImages]
  | cons d rest ih =>
    rw [collectImages]
    by_cases h1 : d.is_regular_file = true
    · by_cases h2 : acceptsExt d.path.extension = true
      · simp only [h1, h2, Bool.not_true, Bool.false_eq_true, if_false, if_true,
          List.mem_cons, ih, exists_eq_or_imp, and_true]
        constructor
        · rintro (h | h)
          · exact Or.inl h.symm
          · exact Or.inr h
        · rintro (h | h)
          · exact Or.inl h.symm
          · exact Or.inr h
      · simp only [h1, h2, Bool.not_true, Bool.false_eq_true, if_false, ih, List.mem_cons,
          exists_eq_or_imp, and_false, false_or]
    · have h1' : d.is_regular_file = false := by simpa using h1
      simp only [h1', Bool.not_false, if_true, ih, List.mem_cons, exists_eq_or_imp,
        Bool.false_eq_true, false_and, and_false, false_or]

/-- C5. The scanner keeps a path exactly when it is the path of a regular
file of the folder whose extension, with every character lowercased, is one of
`.jpg .jpeg .png .bmp .tiff .webp`.  Acceptance of an extension is
case-insensitive: an extension is accepted iff every case variant of it is,
its uppercase form is a case variant, and every extension whose lowercased
form is not in the list, the empty one included, is rejected. -/
theorem scanner_extension_filter :
    (∀ (entries : List DirEntry) (p : Path),
      p ∈ collectImages entries ↔
        ∃ d ∈ entries, d.path = p ∧ d.is_regular_file = true ∧
          lowerExt d.path.extension ∈ imageExtensions) ∧
    (∀ e : String, acceptsExt e = true ↔ ∀ e', CaseVariant e e' → acceptsExt e' = true) ∧
    (∀ e : String, CaseVariant e (String.mk (e.data.map toupper)) ∧
      acceptsExt (String.mk (e.data.map toupper)) = acceptsExt e) ∧
    (∀ e : String, lowerExt e ∉ imageExtensions → acceptsExt e = false) ∧
    acceptsExt "" = false := by
  have hvar : ∀ e1 e2 : String, CaseVariant e1 e2 → acceptsExt e1 = acceptsExt e2 := by
    intro e1 e2 h
    simp only [acceptsExt, lowerExt_of_caseVariant h]
  refine ⟨fun entries p => ?_, fun e => ⟨fun h e' hv => ?_, fun h => h e (caseVariant_refl e)⟩,
    fun e => ⟨caseVariant_upper e, (hvar _ _ (caseVariant_upper e)).symm⟩, fun e h => ?_,
    by decide⟩
  · rw [mem_collectImages]
    simp only [acceptsExt_iff]
  · rw [← hvar e e' hv]; exact h
  · cases hacc : acceptsExt e with
    | false => rfl
    | true => exact absurd ((acceptsExt_iff e).1 hacc) h

/-- C5 at the extension `.JpEg`: it is accepted, and so are its case variants. -/
theorem scanner_extension_filter_witness :
    acceptsExt ".JpEg" = true ∧ ∀ e', CaseVariant ".JpEg" e' → acceptsExt e' = true :=
  ⟨by decide, (scanner_extension_filter.2.1 ".JpEg").1 (by decide)⟩

/-! ### The loop over the images -/

theorem processImages_spec (env : Env) (outputFolder : String) (w h : Int) (total : Nat)
    (hw : 0 < w) (hh : 0 < h) :
    ∀ (images : List Path) (count : Nat), env.bodyReturns outputFolder images →
      (processImages env outputFolder w h total images count).completed = true ∧
      (processImages env outputFolder w h total images count).events.filterMap Event.readOf =
        images ∧
      (processImages env outputFolder w h total images count).events.filterMap
          Event.readFailedOf = images.filter (fun p => !env.imreadOk p) ∧
      (processImages env outputFolder w h total images count).events.filterMap Event.writeOf =
        (images.filter env.imreadOk).map (outPathOf outputFolder) ∧
      (processImages env outputFolder w h total images count).events.filterMap
          Event.writeFailedOf =
        ((images.filter env.imreadOk).map (outPathOf outputFolder)).filter
          (fun o => !env.imwriteOk o) ∧
      (processImages env outputFolder w h total images count).events.filterMap Event.savedOf =
        ((images.filter env.imreadOk).map (outPathOf outputFolder)).filter env.imwriteOk ∧
      ((processImages env outputFolder w h total images count).events.filter
          Event.isErrorLine).length =
        (images.filter
          (fun p => !env.imreadOk p || !env.imwriteOk (outPathOf outputFolder p))).length := by
  intro images
  induction images with
  | nil => intro count _; simp [processImages]
  | cons p rest ih =>
    intro count hret
    obtain ⟨h1, h2, h3, h4, h5, h6, h7⟩ :=
      ih (count + 1) (fun q hq => hret q (List.mem_cons_of_mem _ hq))
    have hpos : ¬ (w ≤ 0 ∨ h ≤ 0) := by omega
    rw [processImages]
    cases hr : env.imreadOk p with
    | false =>
      simp [hr, h1, h2, h3, h4, h5, h6, h7, Event.readOf, Event.readFailedOf, Event.writeOf,
        Event.writeFailedOf, Event.savedOf, Event.isErrorLine, List.filterMap_append]
    | true =>
      obtain ⟨ht, hthrow⟩ := hret p (List.mem_cons_self p rest) hr
      cases hwr : env.imwriteOk (outPathOf outputFolder p) with
      | false =>
        simp [hr, hwr, ht, hthrow, hpos, h1, h2, h3, h4, h5, h6, h7, Event.readOf,
          Event.readFailedOf, Event.writeOf, Event.writeFailedOf, Event.savedOf,
          Event.isErrorLine, List.filterMap_append]
      | true =>
        simp [hr, hwr, ht, hthrow, hpos, h1, h2, h3, h4, h5, h6, h7, Event.readOf,
          Event.readFailedOf, Event.writeOf, Event.writeFailedOf, Event.savedOf,
          Event.isErrorLine, List.filterMap_append]

theorem processImages_saved_pos (env : Env) (outputFolder : String) (w h : Int) (total : Nat) :
    ∀ (images : List Path) (count : Nat) (o : String),
      Event.saved o ∈ (processImages env outputFolder w h total images count).events →
        0 < w ∧ 0 < h := by
  intro images
  induction images with
  | nil => intro count o hmem; simp [processImages] at hmem
  | cons p rest ih =>
    intro count o hmem
    by_cases hpos : w ≤ 0 ∨ h ≤ 0
    · rw [processImages] at hmem
      cases hr : env.imreadOk p with
      | false =>
        simp [hr] at hmem
        exact ih _ _ hmem
      | true => simp [hr, hpos] at hmem
    · omega

/-- Whatever is thrown, the loop reads the images in list order, each at most
once: the images read are an initial segment of the list. -/
theorem processImages_reads_in_order (env : Env) (outputFolder : String) (w h : Int)
    (total : Nat) :
    ∀ (images : List Path) (count : Nat),
      (processImages env outputFolder w h total images count).events.filterMap Event.readOf <+:
        images := by
  intro images
  induction images with
  | nil => intro count; simp [processImages]
  | cons p rest ih =>
    intro count
    have hrest := ih (count + 1)
    rw [processImages]
    cases hr : env.imreadOk p with
    | false =>
      simp only [hr, Bool.not_false, if_true, List.filterMap_append, List.filterMap_cons,
        List.filterMap_nil, Event.readOf, List.append_nil, List.nil_append,
        List.singleton_append]
      exact (List.prefix_cons_inj p).2 hrest
    | true =>
      simp only [hr, Bool.not_true, Bool.false_eq_true, if_false]
      split
      · simp only [List.filterMap_cons, List.filterMap_nil, Event.readOf]
        exact (List.prefix_cons_inj p).2 List.nil_prefix
      · split
        · simp only [List.filterMap_append, List.filterMap_cons, List.filterMap_nil,
            Event.readOf, List.append_nil]
          exact (List.prefix_cons_inj p).2 List.nil_prefix
        · split
          · simp only [List.filterMap_append, List.filterMap_cons, List.filterMap_nil,
              Event.readOf, List.append_nil, List.nil_append, List.singleton_append]
            exact (List.prefix_cons_inj p).2 hrest
          · simp only [List.filterMap_append, List.filterMap_cons, List.filterMap_nil,
              Event.readOf, List.append_nil, List.nil_append, List.singleton_append]
            exact (List.prefix_cons_inj p).2 hrest

/-! ### main -/

theorem main_of_parsed (env : Env) (w h : Int) (hlen : env.argv.length = 6)
    (hw : stoi (env.argv.getD 3 "") = .ok w) (hh : stoi (env.argv.getD 4 "") = .ok h) :
    main env =
      if (!env.outputFolderExists && !env.createDirectoriesOk) = true then ⟨[], .uncaught⟩
      else if (!env.modelLoads) = true then
        ⟨(if env.outputFolderExists then []
            else [Event.createDirectories (env.argv.getD 2 "")]) ++ [Event.modelLoadError],
          .exit (-1)⟩
      else
        match env.inputDir with
        | none =>
          ⟨if env.outputFolderExists then []
            else [Event.createDirectories (env.argv.getD 2 "")], .uncaught⟩
        | some entries =>
          if (collectImages entries).length = 0 then
            ⟨(if env.outputFolderExists then []
                else [Event.createDirectories (env.argv.getD 2 "")]) ++ [Event.noImagesFound],
              .exit (-1)⟩
          else if (processImages env (env.argv.getD 2 "") w h (collectImages entries).length
              (collectImages entries) 0).completed = true then
            ⟨(if env.outputFolderExists then []
                else [Event.createDirectories (env.argv.getD 2 "")]) ++
              (processImages env (env.argv.getD 2 "") w h (collectImages entries).length
                (collectImages entries) 0).events ++
              [Event.progress (collectImages entries).length (collectImages entries).length
                "Done", Event.allProcessed], .exit 0⟩
          else
            ⟨(if env.outputFolderExists then []
                else [Event.createDirectories (env.argv.getD 2 "")]) ++
              (processImages env (env.argv.getD 2 "") w h (collectImages entries).length
                (collectImages entries) 0).events, .uncaught⟩ := by
  simp only [main, hlen, hw, hh, ne_eq, not_true_eq_false, if_false]

theorem main_of_loop (env : Env) (w h : Int) (entries : List DirEntry)
    (hlen : env.argv.length = 6)
    (hw : stoi (env.argv.getD 3 "") = .ok w) (hh : stoi (env.argv.getD 4 "") = .ok h)
    (hc : env.outputFolderExists = true ∨ env.createDirectoriesOk = true)
    (hm : env.modelLoads = true) (hd : env.inputDir = some entries)
    (hne : collectImages entries ≠ []) :
    main env =
      if (processImages env (env.argv.getD 2 "") w h (collectImages entries).length
          (collectImages entries) 0).completed then
        ⟨(if env.outputFolderExists then []
            else [Event.createDirectories (env.argv.getD 2 "")]) ++
          (processImages env (env.argv.getD 2 "") w h (collectImages entries).length
            (collectImages entries) 0).events ++
          [Event.progress (collectImages entries).length (collectImages entries).length "Done",
            Event.allProcessed], .exit 0⟩
      else
        ⟨(if env.outputFolderExists then []
            else [Event.createDirectories (env.argv.getD 2 "")]) ++
          (processImages env (env.argv.getD 2 "") w h (collectImages entries).length
            (collectImages entries) 0).events, .uncaught⟩ := by
  have hlen' : ¬ (collectImages entries).length = 0 := fun h0 => hne (List.length_eq_zero.1 h0)
  have hc' : ¬ (!env.outputFolderExists && !env.createDirectoriesOk) = true := by
    rcases hc with hc | hc <;> simp [hc]
  rw [main_of_parsed env w h hlen hw hh, if_neg hc', if_neg (by simp [hm])]
  simp only [hd, if_neg hlen']

theorem createDirs_silent (env : Env) (o : String) :
    ∀ e ∈ (if env.outputFolderExists then [] else [Event.createDirectories o]),
      e.touchesFile = false ∧ e.isErrorLine = false ∧ e.readOf = none ∧ e.writeOf = none ∧
        e.readFailedOf = none ∧ e.writeFailedOf = none ∧ e.savedOf = none := by
  intro e he
  split at he
  · cases he
  · rw [List.mem_singleton] at he
    subst he
    exact ⟨rfl, rfl, rfl, rfl, rfl, rfl, rfl⟩

theorem main_of_parse_error (env : Env) (hlen : env.argv.length = 6)
    (h : (∀ w, stoi (env.argv.getD 3 "") ≠ .ok w) ∨ (∀ h, stoi (env.argv.getD 4 "") ≠ .ok h)) :
    main env = ⟨[], .uncaught⟩ := by
  unfold main
  rw [if_neg (by simpa using hlen)]
  simp only
  cases hw : stoi (env.argv.getD 3 "") with
  | invalid_argument => rfl
  | out_of_range => rfl
  | ok w =>
    cases hh : stoi (env.argv.getD 4 "") with
    | invalid_argument => rfl
    | out_of_range => rfl
    | ok hv =>
      rcases h with h | h
      · exact absurd hw (h w)
      · exact absurd hh (h hv)

/-- The runs of `main` fall into: wrong argument count; a size that does not
convert; both sizes converted. -/
theorem main_cases (env : Env) :
    env.argv.length ≠ 6 ∨
    (env.argv.length = 6 ∧ main env = ⟨[], .uncaught⟩) ∨
    (env.argv.length = 6 ∧ ∃ w h, stoi (env.argv.getD 3 "") = .ok w ∧
      stoi (env.argv.getD 4 "") = .ok h) := by
  by_cases hlen : env.argv.length = 6
  · cases hw : stoi (env.argv.getD 3 "") with
    | invalid_argument =>
      exact Or.inr (Or.inl ⟨hlen,
        main_of_parse_error env hlen (Or.inl (fun w => by rw [hw]; simp))⟩)
    | out_of_range =>
      exact Or.inr (Or.inl ⟨hlen,
        main_of_parse_error env hlen (Or.inl (fun w => by rw [hw]; simp))⟩)
    | ok w =>
      cases hh : stoi (env.argv.getD 4 "") with
      | invalid_argument =>
        exact Or.inr (Or.inl ⟨hlen,
          main_of_parse_error env hlen (Or.inr (fun w => by rw [hh]; simp))⟩)
      | out_of_range =>
        exact Or.inr (Or.inl ⟨hlen,
          main_of_parse_error env hlen (Or.inr (fun w => by rw [hh]; simp))⟩)
      | ok hv => exact Or.inr (Or.inr ⟨hlen, w, hv, rfl, rfl⟩)
  · exact Or.inl hlen

/-- When `main` does not get to its loop, it reads no image and writes no file. -/
theorem main_silent_of_early (env : Env)
    (h : env.argv.length ≠ 6 ∨ env.modelLoads = false ∨
      ∀ entries, env.inputDir = some entries → collectImages entries = []) :
    (main env).outcome ≠ .exit 0 ∧ ∀ e ∈ (main env).events, e.touchesFile = false := by
  rcases main_cases env with hlen | ⟨_, hmain⟩ | ⟨hlen, w, hv, hw, hh⟩
  · simp only [main, if_pos hlen]
    refine ⟨by simp, fun e he => ?_⟩
    rw [List.mem_singleton] at he; subst he; rfl
  · rw [hmain]
    exact ⟨by simp, fun e he => by cases he⟩
  · rw [main_of_parsed env w hv hlen hw hh]
    have hmk := createDirs_silent env (env.argv.getD 2 "")
    generalize (if env.outputFolderExists then []
      else [Event.createDirectories (env.argv.getD 2 "")]) = mk at hmk ⊢
    have hmk1 : ∀ (x : Event), ∀ e ∈ mk ++ [x], x.touchesFile = false →
        e.touchesFile = false := by
      intro x e he hx
      rcases List.mem_append.1 he with he | he
      · exact (hmk e he).1
      · rw [List.mem_singleton] at he; subst he; exact hx
    split
    · exact ⟨by simp, fun e he => by cases he⟩
    · split
      · exact ⟨by simp, fun e he => hmk1 _ e he rfl⟩
      · rename_i hm
        have hm' : env.modelLoads = true := by simpa using hm
        cases hd : env.inputDir with
        | none => exact ⟨by simp, fun e he => (hmk e he).1⟩
        | some entries =>
          have hnil : collectImages entries = [] := by
            rcases h with h | h | h
            · exact absurd hlen h
            · rw [hm'] at h; cases h
            · exact h entries hd
          simp only [hnil, List.length_nil, if_true]
          exact ⟨by simp, fun e he => hmk1 _ e he rfl⟩

/-- C6. With the environment as input: when the argument count is not six
(five positional arguments), or the model fails to load, or no matching image
is found, `main` does not end with status 0 and reads no image and writes no
output file; in every other run that returns from `main` the status is 0,
whatever files fail to read or write, and such a run does return when both
sizes convert to positive values and no call outside the `try` throws.  The
status is -1 when the argument count is wrong, and also, once both sizes are
converted and the output folder exists or is created, when the model fails to
load or the folder holds no matching image. -/
theorem main_exit_status (env : Env) :
    (env.argv.length ≠ 6 →
      (main env).outcome = .exit (-1) ∧ ∀ e ∈ (main env).events, e.touchesFile = false) ∧
    (env.modelLoads = false →
      (main env).outcome ≠ .exit 0 ∧ ∀ e ∈ (main env).events, e.touchesFile = false) ∧
    ((∀ entries, env.inputDir = some entries → collectImages entries = []) →
      (main env).outcome ≠ .exit 0 ∧ ∀ e ∈ (main env).events, e.touchesFile = false) ∧
    (env.argv.length = 6 → env.modelLoads = true →
      (∃ entries, env.inputDir = some entries ∧ collectImages entries ≠ []) →
      (∀ code, (main env).outcome = .exit code → code = 0) ∧
      ((∃ w h, stoi (env.argv.getD 3 "") = .ok w ∧ stoi (env.argv.getD 4 "") = .ok h ∧
          0 < w ∧ 0 < h) →
        (env.outputFolderExists = true ∨ env.createDirectoriesOk = true) →
        (∀ entries, env.inputDir = some entries →
          env.bodyReturns (env.argv.getD 2 "") (collectImages entries)) →
        (main env).outcome = .exit 0)) ∧
    (env.argv.length = 6 →
      (∃ w h, stoi (env.argv.getD 3 "") = .ok w ∧ stoi (env.argv.getD 4 "") = .ok h) →
      (env.outputFolderExists = true ∨ env.createDirectoriesOk = true) →
      (env.modelLoads = false ∨
        ∃ entries, env.inputDir = some entries ∧ collectImages entries = []) →
      (main env).outcome = .exit (-1)) := by
  refine ⟨fun h => ⟨?_, (main_silent_of_early env (Or.inl h)).2⟩,
    fun h => main_silent_of_early env (Or.inr (Or.inl h)),
    fun h => main_silent_of_early env (Or.inr (Or.inr h)),
    fun hlen hm ⟨entries, hd, hne⟩ =>
      ⟨fun code hc => ?_, fun ⟨w, h, hw, hh, hwp, hhp⟩ hcr hret => ?_⟩,
    fun hlen ⟨w, h, hw, hh⟩ hcr hbad => ?_⟩
  rotate_right
  · have hc' : ¬ (!env.outputFolderExists && !env.createDirectoriesOk) = true := by
      rcases hcr with hc | hc <;> simp [hc]
    rw [main_of_parsed env w h hlen hw hh, if_neg hc']
    cases hm : env.modelLoads with
    | false => simp
    | true =>
      rcases hbad with hbad | ⟨entries, hd, hnil⟩
      · rw [hm] at hbad; cases hbad
      · simp only [hd, hnil, List.length_nil, if_true, Bool.not_true, Bool.false_eq_true,
          if_false]
  · simp only [main, if_pos h]
  · rcases main_cases env with hlen' | ⟨_, hmain⟩ | ⟨_, w, hv, hw, hh⟩
    · exact absurd hlen hlen'
    · rw [hmain] at hc; cases hc
    · rw [main_of_parsed env w hv hlen hw hh] at hc
      split at hc
      · cases hc
      · rw [if_neg (by simp [hm])] at hc
        have hlen0 : ¬ (collectImages entries).length = 0 :=
          fun h0 => hne (List.length_eq_zero.1 h0)
        simp only [hd, if_neg hlen0] at hc
        split at hc
        · cases hc; rfl
        · cases hc
  · rw [main_of_loop env w h entries hlen hw hh hcr hm hd hne,
      if_pos (processImages_spec env _ w h _ hwp hhp _ 0 (hret entries hd)).1]

/-- C6 at an existing folder without any image: status -1, nothing read or written. -/
theorem main_exit_status_witness :
    (main (sampleEnv "1920" "1080" [] [])).outcome = .exit (-1) ∧
      ∀ e ∈ (main (sampleEnv "1920" "1080" [] [])).events, e.touchesFile = false :=
  have h := main_exit_status (sampleEnv "1920" "1080" [] [])
  ⟨h.2.2.2.2 (by decide) ⟨1920, 1080, by decide, by decide⟩ (Or.inl rfl)
      (Or.inr ⟨[], rfl, rfl⟩),
    (h.2.2.1 (fun entries he => by cases he; rfl)).2⟩

theorem length_filter_map_filter (ok1 : Path → Bool) (ok2 : String → Bool) (f : Path → String)
    (l : List Path) :
    (((l.filter ok1).map f).filter ok2).length = (l.filter (fun p => ok1 p && ok2 (f p))).length := by
  induction l with
  | nil => rfl
  | cons a l ih =>
    cases h1 : ok1 a <;> cases h2 : ok2 (f a) <;> simp [List.filter_cons, h1, h2, ih]

theorem main_reads_in_order (env : Env) (w h : Int) (entries : List DirEntry)
    (hlen : env.argv.length = 6)
    (hw : stoi (env.argv.getD 3 "") = .ok w) (hh : stoi (env.argv.getD 4 "") = .ok h)
    (hm : env.modelLoads = true) (hd : env.inputDir = some entries)
    (hne : collectImages entries ≠ []) :
    (main env).events.filterMap Event.readOf <+: collectImages entries := by
  have hmk := createDirs_silent env (env.argv.getD 2 "")
  have hloop := processImages_reads_in_order env (env.argv.getD 2 "") w h
    (collectImages entries).length (collectImages entries) 0
  have hlen0 : ¬ (collectImages entries).length = 0 :=
    fun h0 => hne (List.length_eq_zero.1 h0)
  rw [main_of_parsed env w h hlen hw hh]
  generalize (if env.outputFolderExists then []
    else [Event.createDirectories (env.argv.getD 2 "")]) = mk at hmk ⊢
  have hnone : mk.filterMap Event.readOf = [] :=
    List.filterMap_eq_nil_iff.2 (fun e he => (hmk e he).2.2.1)
  split
  · exact List.nil_prefix
  · rw [if_neg (by simp [hm])]
    simp only [hd, if_neg hlen0]
    split
    · simp only [List.filterMap_append, hnone, List.nil_append, List.filterMap_cons,
        List.filterMap_nil, Event.readOf, List.append_nil]
      exact hloop
    · simp only [List.filterMap_append, hnone, List.nil_append]
      exact hloop

/-- C7, as the code has it.  When `main` reaches its loop (six arguments,
both sizes converted, the model loaded, a non-empty list of discovered
images), the images are read in list order, each at most once, whatever
happens.  When moreover the output folder exists or is created, both target
sizes are positive and no call of the loop body throws for a readable image,
then for every assignment of read and write outcomes: every image is read
exactly once, in list order; the "Failed to read" lines are exactly the images
whose read fails; the write attempts are exactly the images whose read
succeeds, in order, one each; the "Failed to write" lines are the failed write
attempts and the saved files the successful ones; so the number of output
files is the number of images whose read and write both succeed, the number
of error lines is the number of images with a failed read or write, and the
exit status is 0. -/
theorem main_per_file (env : Env) (w h : Int) (entries : List DirEntry)
    (hlen : env.argv.length = 6)
    (hw : stoi (env.argv.getD 3 "") = .ok w) (hh : stoi (env.argv.getD 4 "") = .ok h)
    (hm : env.modelLoads = true) (hd : env.inputDir = some entries)
    (hne : collectImages entries ≠ []) :
    ((main env).events.filterMap Event.readOf <+: collectImages entries) ∧
    ((env.outputFolderExists = true ∨ env.createDirectoriesOk = true) → 0 < w → 0 < h →
      env.bodyReturns (env.argv.getD 2 "") (collectImages entries) →
      (main env).outcome = .exit 0 ∧
      (main env).events.filterMap Event.readOf = collectImages entries ∧
      (main env).events.filterMap Event.readFailedOf =
        (collectImages entries).filter (fun p => !env.imreadOk p) ∧
      (main env).events.filterMap Event.writeOf =
        ((collectImages entries).filter env.imreadOk).map (outPathOf (env.argv.getD 2 "")) ∧
      (main env).events.filterMap Event.writeFailedOf =
        (((collectImages entries).filter env.imreadOk).map
          (outPathOf (env.argv.getD 2 ""))).filter (fun o => !env.imwriteOk o) ∧
      (main env).events.filterMap Event.savedOf =
        (((collectImages entries).filter env.imreadOk).map
          (outPathOf (env.argv.getD 2 ""))).filter env.imwriteOk ∧
      ((main env).events.filterMap Event.savedOf).length =
        ((collectImages entries).filter
          (fun p => env.imreadOk p && env.imwriteOk (outPathOf (env.argv.getD 2 "") p))).length ∧
      ((main env).events.filter Event.isErrorLine).length =
        ((collectImages entries).filter
          (fun p => !env.imreadOk p ||
            !env.imwriteOk (outPathOf (env.argv.getD 2 "") p))).length) := by
  refine ⟨main_reads_in_order env w h entries hlen hw hh hm hd hne, fun hcr hwp hhp hret => ?_⟩
  obtain ⟨h1, h2, h3, h4, h5, h6, h7⟩ := processImages_spec env (env.argv.getD 2 "") w h
    (collectImages entries).length hwp hhp (collectImages entries) 0 hret
  rw [main_of_loop env w h entries hlen hw hh hcr hm hd hne, if_pos h1]
  have hmk := createDirs_silent env (env.argv.getD 2 "")
  have hsaved := length_filter_map_filter env.imreadOk env.imwriteOk
    (outPathOf (env.argv.getD 2 "")) (collectImages entries)
  generalize (if env.outputFolderExists then []
    else [Event.createDirectories (env.argv.getD 2 "")]) = mk at hmk ⊢
  generalize env.argv.getD 2 "" = outF at h1 h2 h3 h4 h5 h6 h7 hsaved ⊢
  have hnone : ∀ (f : Event → Option String), (∀ e ∈ mk, f e = none) → mk.filterMap f = [] :=
    fun f hf => List.filterMap_eq_nil_iff.2 hf
  have hnone' : ∀ (f : Event → Option Path), (∀ e ∈ mk, f e = none) → mk.filterMap f = [] :=
    fun f hf => List.filterMap_eq_nil_iff.2 hf
  have herr : mk.filter Event.isErrorLine = [] :=
    List.filter_eq_nil_iff.2 (fun e he => by rw [(hmk e he).2.1]; simp)
  simp only [List.filterMap_append, List.filter_append, List.length_append, h2, h3, h4, h5,
    h6, h7, hsaved, herr, hnone' _ (fun e he => (hmk e he).2.2.1),
    hnone _ (fun e he => (hmk e he).2.2.2.1), hnone' _ (fun e he => (hmk e he).2.2.2.2.1),
    hnone _ (fun e he => (hmk e he).2.2.2.2.2.1), hnone _ (fun e he => (hmk e he).2.2.2.2.2.2)]
  simp [Event.readOf, Event.readFailedOf, Event.writeOf, Event.writeFailedOf, Event.savedOf,
    Event.isErrorLine, hsaved]

/-- C7 as amended, at a folder with one unreadable and one valid image: one
output file, one error line, exit status 0, both files read once in order. -/
theorem main_per_file_witness :
    (main (sampleEnv "1920" "1080" twoFiles ["broken"])).outcome = .exit 0 ∧
    (main (sampleEnv "1920" "1080" twoFiles ["broken"])).events.filterMap Event.readOf =
      [⟨"broken", ".png"⟩, ⟨"photo", ".JPG"⟩] ∧
    (main (sampleEnv "1920" "1080" twoFiles ["broken"])).events.filterMap Event.savedOf =
      ["out/photo_upscaled.JPG"] ∧
    ((main (sampleEnv "1920" "1080" twoFiles ["broken"])).events.filter
      Event.isErrorLine).length = 1 :=
  have h := (main_per_file (sampleEnv "1920" "1080" twoFiles ["broken"]) 1920 1080 twoFiles
    (by decide) (by decide) (by decide) (by decide) (by decide) (by decide)).2
    (Or.inl rfl) (by decide) (by decide) (fun _ _ _ => ⟨rfl, rfl⟩)
  ⟨h.1, h.2.1, h.2.2.2.2.2.1, h.2.2.2.2.2.2.2⟩

/-- C7 fails as stated.  The folder holds two images and both reads succeed.
With the height argument `0` (which `std::stoi` converts) the run reads the
first image, `cv::resize` throws on the empty size and the run ends there:
the first image gets no write attempt, the second image is never read, the
status is not 0.  The same happens with sizes 1920 x 1080 when a transform of
the first image throws, and, after the write attempt, when `imwrite` throws. -/
theorem main_per_file_counterexample :
    collectImages twoFiles = [⟨"broken", ".png"⟩, ⟨"photo", ".JPG"⟩] ∧
    stoi "0" = .ok 0 ∧
    (main (sampleEnv "1920" "0" twoFiles [])).events =
      [.progress 0 2 "broken.png", .imread ⟨"broken", ".png"⟩] ∧
    (main (sampleEnv "1920" "0" twoFiles [])).outcome = .uncaught ∧
    (main (sampleEnvThrowing "1920" "1080" twoFiles "broken")).events =
      [.progress 0 2 "broken.png", .imread ⟨"broken", ".png"⟩] ∧
    (main (sampleEnvThrowing "1920" "1080" twoFiles "broken")).outcome = .uncaught ∧
    (main { sampleEnv "1920" "1080" twoFiles [] with imwriteThrows := fun _ => true }).events =
      [.progress 0 2 "broken.png", .imread ⟨"broken", ".png"⟩,
        .imwrite "out/broken_upscaled.png"] ∧
    (main { sampleEnv "1920" "1080" twoFiles [] with imwriteThrows := fun _ => true }).outcome =
      .uncaught := by
  decide

/-! ### C8: the target sizes -/

theorem takeWhile_isdigit_nil (l : List Char) (h : ∀ c ∈ l, isdigit c = false) :
    l.takeWhile isdigit = [] := by
  cases l with
  | nil => rfl
  | cons a t => simp [List.takeWhile, h a (List.mem_cons_self a t)]

/-- A string without any decimal digit makes `std::stoi` throw `std::invalid_argument`. -/
theorem stoi_no_digit (str : String) (h : ∀ c ∈ str.data, isdigit c = false) :
    stoi str = .invalid_argument := by
  have hbody : ∀ c ∈ str.data.dropWhile isspace, isdigit c = false :=
    fun c hc => h c ((List.dropWhile_sublist isspace).subset hc)
  unfold stoi
  simp only
  generalize str.data.dropWhile isspace = body at hbody
  have hd : (match body with
      | '-' :: rest => (true, rest)
      | '+' :: rest => (false, rest)
      | rest => (false, rest)).2.takeWhile isdigit = [] := by
    apply takeWhile_isdigit_nil
    intro c hc
    split at hc
    · exact hbody c (List.mem_cons_of_mem _ hc)
    · exact hbody c (List.mem_cons_of_mem _ hc)
    · exact hbody c hc
  rw [hd]
  rfl

theorem isspace_of_isdigit {c : Char} (h : isdigit c = true) : isspace c = false := by
  cases hs : isspace c with
  | false => rfl
  | true =>
    simp only [isspace, Bool.or_eq_true, beq_iff_eq] at hs
    rcases hs with ((((hs | hs) | hs) | hs) | hs) | hs <;> subst hs <;> revert h <;> decide

theorem takeWhile_isdigit_append (ds rest : List Char) (hds : ∀ c ∈ ds, isdigit c = true)
    (hrest : ∀ c, rest.head? = some c → isdigit c = false) :
    (ds ++ rest).takeWhile isdigit = ds := by
  induction ds with
  | nil =>
    cases rest with
    | nil => rfl
    | cons a t => simp [List.takeWhile, hrest a rfl]
  | cons a t ih =>
    rw [List.cons_append, List.takeWhile_cons, if_pos (hds a (List.mem_cons_self a t)),
      ih (fun c hc => hds c (List.mem_cons_of_mem _ hc))]

/-- A non-empty run of decimal digits whose value fits `int`, followed by
anything that does not start with a digit, converts to the value of the
digits: `std::stoi` ignores what follows the digits. -/
theorem stoi_digits_then_rest (ds rest : List Char) (hne : ds ≠ [])
    (hds : ∀ c ∈ ds, isdigit c = true)
    (hrest : ∀ c, rest.head? = some c → isdigit c = false)
    (hfit : digitsValue ds ≤ 2147483647) :
    stoi (String.mk (ds ++ rest)) = .ok (digitsValue ds) := by
  obtain ⟨a, t, rfl⟩ : ∃ a t, ds = a :: t := by
    cases ds with
    | nil => exact absurd rfl hne
    | cons a t => exact ⟨a, t, rfl⟩
  have ha : isdigit a = true := hds a (List.mem_cons_self a t)
  have hbody : (a :: t ++ rest).dropWhile isspace = a :: (t ++ rest) := by
    simp [List.dropWhile, isspace_of_isdigit ha]
  have hminus : a ≠ '-' := fun h => by subst h; revert ha; decide
  have hplus : a ≠ '+' := fun h => by subst h; revert ha; decide
  have htake := takeWhile_isdigit_append (a :: t) rest hds hrest
  have hsign : (match a :: (t ++ rest) with
      | '-' :: rest => (true, rest)
      | '+' :: rest => (false, rest)
      | rest => (false, rest)) = (false, a :: (t ++ rest)) := by
    split
    · rename_i heq; cases heq; exact absurd rfl hminus
    · rename_i heq; cases heq; exact absurd rfl hplus
    · rfl
  rw [List.cons_append] at htake
  unfold stoi
  simp only [hbody, hsign, htake]
  rw [if_neg (by simp), if_neg (by simp; omega)]
  simp

theorem main_saved_pos (env : Env) (w h : Int) (hlen : env.argv.length = 6)
    (hw : stoi (env.argv.getD 3 "") = .ok w) (hh : stoi (env.argv.getD 4 "") = .ok h)
    (o : String) (hmem : Event.saved o ∈ (main env).events) : 0 < w ∧ 0 < h := by
  have hmk : Event.saved o ∉ (if env.outputFolderExists then []
      else [Event.createDirectories (env.argv.getD 2 "")]) :=
    fun hin => by have := (createDirs_silent env _ _ hin).1; cases this
  rw [main_of_parsed env w h hlen hw hh] at hmem
  generalize (if env.outputFolderExists then []
    else [Event.createDirectories (env.argv.getD 2 "")]) = mk at hmk hmem
  split at hmem
  · cases hmem
  · split at hmem
    · rcases List.mem_append.1 hmem with h1 | h1
      · exact absurd h1 hmk
      · simp at h1
    · cases hd : env.inputDir with
      | none =>
        simp only [hd] at hmem
        exact absurd hmem hmk
      | some entries =>
        simp only [hd] at hmem
        have hloop : Event.saved o ∈ (processImages env (env.argv.getD 2 "") w h
            (collectImages entries).length (collectImages entries) 0).events := by
          split at hmem
          · rcases List.mem_append.1 hmem with h1 | h1
            · exact absurd h1 hmk
            · simp at h1
          · split at hmem
            · rcases List.mem_append.1 hmem with h1 | h1
              · rcases List.mem_append.1 h1 with h2 | h2
                · exact absurd h2 hmk
                · exact h2
              · simp at h1
            · rcases List.mem_append.1 hmem with h1 | h1
              · exact absurd h1 hmk
              · exact h1
        exact processImages_saved_pos env _ w h _ _ 0 o hloop

/-- C8, as the code has it.  With six arguments, `main` reads an image or
writes a file only if `std::stoi` converts both size arguments; when it does
not convert one of them the exception is not caught and the run ends before
anything is read or written; an output file is written only if both converted
values are positive.  `std::stoi` throws on every string without a decimal
digit, and converts a run of digits (value within `int`) followed by anything
else to the value of the digits. -/
theorem main_target_sizes (env : Env) (hlen : env.argv.length = 6) :
    ((∃ e ∈ (main env).events, e.touchesFile = true) →
      ∃ w h, stoi (env.argv.getD 3 "") = .ok w ∧ stoi (env.argv.getD 4 "") = .ok h) ∧
    ((∃ o, Event.saved o ∈ (main env).events) →
      ∃ w h, stoi (env.argv.getD 3 "") = .ok w ∧ stoi (env.argv.getD 4 "") = .ok h ∧
        0 < w ∧ 0 < h) ∧
    (((∀ w, stoi (env.argv.getD 3 "") ≠ .ok w) ∨ (∀ h, stoi (env.argv.getD 4 "") ≠ .ok h)) →
      (main env).outcome = .uncaught ∧ (main env).events = []) ∧
    (∀ str : String, (∀ c ∈ str.data, isdigit c = false) → stoi str = .invalid_argument) ∧
    (∀ ds rest : List Char, ds ≠ [] → (∀ c ∈ ds, isdigit c = true) →
      (∀ c, rest.head? = some c → isdigit c = false) → digitsValue ds ≤ 2147483647 →
      stoi (String.mk (ds ++ rest)) = .ok (digitsValue ds)) := by
  have hparsed : (∃ e, e ∈ (main env).events) →
      ∃ w h, stoi (env.argv.getD 3 "") = .ok w ∧ stoi (env.argv.getD 4 "") = .ok h := by
    rintro ⟨e, he⟩
    cases hw : stoi (env.argv.getD 3 "") with
    | invalid_argument =>
      rw [main_of_parse_error env hlen (Or.inl (fun w => by rw [hw]; simp))] at he; cases he
    | out_of_range =>
      rw [main_of_parse_error env hlen (Or.inl (fun w => by rw [hw]; simp))] at he; cases he
    | ok w =>
      cases hh : stoi (env.argv.getD 4 "") with
      | invalid_argument =>
        rw [main_of_parse_error env hlen (Or.inr (fun w => by rw [hh]; simp))] at he; cases he
      | out_of_range =>
        rw [main_of_parse_error env hlen (Or.inr (fun w => by rw [hh]; simp))] at he; cases he
      | ok hv => exact ⟨w, hv, rfl, rfl⟩
  refine ⟨fun ⟨e, he, _⟩ => hparsed ⟨e, he⟩, fun ⟨o, ho⟩ => ?_, fun h => ?_,
    stoi_no_digit, stoi_digits_then_rest⟩
  · obtain ⟨w, hv, hw, hh⟩ := hparsed ⟨_, ho⟩
    exact ⟨w, hv, hw, hh, main_saved_pos env w hv hlen hw hh o ho⟩
  · rw [main_of_parse_error env hlen h]
    exact ⟨rfl, rfl⟩

/-- C8 as amended, at a run whose width argument is `abc`: the run ends by
the uncaught exception before any event. -/
theorem main_target_sizes_witness :
    (main (sampleEnv "abc" "1080" twoFiles [])).outcome = .uncaught ∧
      (main (sampleEnv "abc" "1080" twoFiles [])).events = [] :=
  (main_target_sizes (sampleEnv "abc" "1080" twoFiles []) (by decide)).2.2.1
    (Or.inl (fun w hw => by
      have h : stoi ((sampleEnv "abc" "1080" twoFiles []).argv.getD 3 "") =
          .invalid_argument := by decide
      rw [h] at hw
      cases hw))

/-- C8 fails as stated.  The width argument `12abc` is not a numeral of a
positive integer, yet the run is not aborted: it processes the folder, writes
an output file and exits with status 0.  The width argument `0` is not
positive, yet `main` goes on to read the first image (and, when no image is
readable, completes with exit status 0). -/
theorem main_target_sizes_counterexample :
    isPositiveDecimal "12abc" = false ∧
    stoi "12abc" = .ok 12 ∧
    (main (sampleEnv "12abc" "1080" twoFiles ["broken"])).outcome = .exit 0 ∧
    Event.saved "out/photo_upscaled.JPG" ∈
      (main (sampleEnv "12abc" "1080" twoFiles ["broken"])).events ∧
    isPositiveDecimal "0" = false ∧
    Event.imread ⟨"broken", ".png"⟩ ∈ (main (sampleEnv "0" "1080" twoFiles [])).events ∧
    (main (sampleEnv "0" "1080" twoFiles ["broken", "photo"])).outcome = .exit 0 := by
  decide

/-! ### C9: the percentage of printProgress -/

/-- Known binary32 values: `0.1f = 0x3DCCCCCD`, `1.0f / 3 = 0x3EAAAAAB`,
`2^24 + 1` rounds to `2^24` (tie to even), `2^24 + 3` rounds to `2^24 + 4`,
and integers up to `2^24` convert exactly. -/
theorem binary32_samples :
    Binary32.div (Binary32.ofNat 1) (Binary32.ofNat 10) = ⟨13421773, -27⟩ ∧
    Binary32.div (Binary32.ofNat 1) (Binary32.ofNat 3) = ⟨11184811, -25⟩ ∧
    Binary32.ofNat 16777217 = ⟨8388608, 1⟩ ∧
    Binary32.ofNat 16777219 = ⟨8388610, 1⟩ ∧
    Binary32.toNat (Binary32.ofNat 16777215) = 16777215 ∧
    Binary32.toNat (Binary32.ofNat 100) = 100 := by
  decide

/-- C9 fails on the code.  At `current = 53`, `total = 100` (the 54th of 100
images) `float(53) / 100` rounds to `8891924 * 2^-24`, its product with 100
rounds to `13893631 * 2^-18 = 52.999996...`, and the truncation prints 52,
while `floor(100 * 53 / 100) = 53`.  The same happens at 59 of 100. -/
theorem printProgress_percent_53_of_100 :
    (printProgress 53 100 "photo.JPG").percent = some 52 ∧
    100 * 53 / 100 = 53 ∧
    Binary32.div (Binary32.ofNat 53) (Binary32.ofNat 100) = ⟨8891924, -24⟩ ∧
    Binary32.mul ⟨8891924, -24⟩ (Binary32.ofNat 100) = ⟨13893631, -18⟩ ∧
    (printProgress 59 100 "photo.JPG").percent = some 58 ∧
    (printProgress 100 100 "Done").percent = some 100 ∧
    (printProgress 50 100 "photo.JPG").percent = some 50 := by
  decide

end WallpaperGenerator
